import Mathlib

/-!
# The gst client (`src/client/main.c`): line reader, batch driver, REPL driver, `main`

A shallow embedding of the command-line front end of the gst runtime.

* Bytes are `Fin 256` (the values `fgetc` returns besides `EOF`); a C string is
  the list of its bytes before the terminating NUL.
* `size_t` arithmetic is done in `Nat` modulo `2 ^ 64`.
* The parser, the compiler and the virtual machine live outside
  `src/client/main.c`; they are taken as parameters (`ParserOps`, `VmOps`).
* Loops that the C code does not bound (`for (;;)`) are given a step budget;
  `none` means that the budget ran out (or that the C program left defined
  behaviour), `some r` is a finished call.
-/

namespace GstClient

/-- One byte of input, as delivered by `fgetc` or stored in a `char`. -/
abbrev Byte := Fin 256

/-- The newline character. -/
def NL : Byte := 10

/-- The NUL character that terminates a C string. -/
def NUL : Byte := 0

/-- Number of values of a `size_t` (64 bit). -/
def SIZE_MOD : Nat := 2 ^ 64

/-- The decrement `--n` of a `size_t`: zero wraps around to the largest value. -/
def size_dec (n : Nat) : Nat := if n = 0 then SIZE_MOD - 1 else n - 1

/-- The C string that starts at the beginning of a block of memory: the bytes
before the first NUL. -/
def cstr (mem : List Byte) : List Byte := mem.takeWhile (fun b => b != NUL)

/-! ## `gst_getline` (lines 41-68) -/

/-- The local variables of `gst_getline`: the heap block at `linep` (`mem`, its
length is the allocated size), the write offset `line - linep`, and the two
`size_t` counters. -/
structure LineState where
  mem : List Byte
  pos : Nat
  lenmax : Nat
  len : Nat
deriving Repr, DecidableEq

/-- What a call of `gst_getline` yields: `NULL` after a failed allocation, a
write outside the allocated block (undefined behaviour), or the block. -/
inductive LineResult where
  | null : LineResult
  | fault : LineResult
  | line (buf : List Byte) : LineResult
deriving Repr, DecidableEq

/-- Outcome of one pass through the loop body. -/
inductive StoreResult where
  | null : StoreResult
  | fault : StoreResult
  | ok (s : LineState) : StoreResult
deriving Repr, DecidableEq

/-- The block after `realloc(linep, n)`: the old contents up to the smaller of
the two sizes, the new cells uninitialised (`junk`). -/
def realloc_block (junk : Byte) (mem : List Byte) (n : Nat) : List Byte :=
  mem.take n ++ List.replicate (n - mem.length) junk

/-- Lines 53-63 for one character `c` that is not `EOF`: `--len`, the growth
of the block when the counter reaches zero, and the store `*line++ = c`. -/
def gst_getline_store (junk : Byte) (alloc : Nat → Bool) (s : LineState) (c : Byte) :
    StoreResult :=
  let len1 := size_dec s.len
  if len1 = 0 then
    let lenmax2 := (s.lenmax * 2) % SIZE_MOD
    if alloc lenmax2 then
      let mem2 := realloc_block junk s.mem lenmax2
      if s.pos < mem2.length then
        .ok { mem := mem2.set s.pos c, pos := s.pos + 1, lenmax := lenmax2, len := s.lenmax }
      else .fault
    else .null
  else
    if s.pos < s.mem.length then
      .ok { mem := s.mem.set s.pos c, pos := s.pos + 1, lenmax := s.lenmax, len := len1 }
    else .fault

/-- Line 66, `*line = '\0'`, and the return of `linep`. -/
def gst_getline_finish (s : LineState) : LineResult :=
  if s.pos < s.mem.length then .line (s.mem.set s.pos NUL) else .fault

/-- The read loop of lines 49-65 followed by lines 66-67.  The third component
lists the states in which the loop head was reached, in order. -/
def gst_getline_loop (junk : Byte) (alloc : Nat → Bool) :
    LineState → List Byte → LineResult × List Byte × List LineState
  | s, [] => (gst_getline_finish s, [], [s])
  | s, c :: rest =>
    match gst_getline_store junk alloc s c with
    | .null => (.null, rest, [s])
    | .fault => (.fault, rest, [s])
    | .ok s1 =>
      if c = NL then (gst_getline_finish s1, rest, [s, s1])
      else
        let r := gst_getline_loop junk alloc s1 rest
        (r.1, r.2.1, s :: r.2.2)

/-- The state after `malloc(100)` succeeded (lines 42-45). -/
def gst_getline_init (junk : Byte) : LineState :=
  { mem := List.replicate 100 junk, pos := 0, lenmax := 100, len := 100 }

/-- The function `gst_getline`: reads from `stdin` (the bytes still to come; the
empty list is end of file) and returns the result with the unread rest. -/
def gst_getline (junk : Byte) (alloc : Nat → Bool) (stdin : List Byte) :
    LineResult × List Byte :=
  if alloc 100 then
    let r := gst_getline_loop junk alloc (gst_getline_init junk) stdin
    (r.1, r.2.1)
  else (.null, stdin)

/-- The loop-head states of a call of `gst_getline` whose `malloc` succeeded. -/
def gst_getline_states (junk : Byte) (alloc : Nat → Bool) (stdin : List Byte) :
    List LineState :=
  (gst_getline_loop junk alloc (gst_getline_init junk) stdin).2.2

/-- The bytes of a stream up to and including the first newline, or all of
them when there is no newline. -/
def firstLine : List Byte → List Byte
  | [] => []
  | c :: rest => if c = NL then [c] else c :: firstLine rest

/-- The loop invariant of `gst_getline`: the block has the size `lenmax`, the
bytes stored and the counter `len` add up to it, `len` is positive, and
`lenmax` is 100 doubled some number of times and below `2 ^ 63`. -/
def LineInv (s : LineState) : Prop :=
  s.mem.length = s.lenmax ∧ s.pos + s.len = s.lenmax ∧ 1 ≤ s.len ∧
    (∃ k, s.lenmax = 100 * 2 ^ k) ∧ s.lenmax < 2 ^ 63

/-- An allocator that respects the limit on the size of a C object: it never
grants a request of `2 ^ 63` bytes or more (`PTRDIFF_MAX` is `2 ^ 63 - 1`). -/
def AllocBounded (alloc : Nat → Bool) : Prop := ∀ n, alloc n = true → n < 2 ^ 63

/-! ## The parser and the virtual machine, as the client sees them -/

/-- The status of a parser session (`p.status`). -/
inductive GstParserStatus where
  | GST_PARSER_PENDING : GstParserStatus
  | GST_PARSER_FULL : GstParserStatus
  | GST_PARSER_ERROR : GstParserStatus
  | GST_PARSER_ROOT : GstParserStatus
deriving Repr, DecidableEq

open GstParserStatus

/-- The parser functions called by the client, over parser sessions `P` and
values `V`.  `gst_parser_init` is the session that the call of `gst_parser`
with `&p` and `vm` sets up, `error` is the field `p.error` (`none` for a null
pointer), `gst_parse_cstring p s` gives the session after the call and the
number of bytes of the C string `s` that the call reports as read. -/
structure ParserOps (P V : Type) where
  gst_parser_init : P
  status : P → GstParserStatus
  error : P → Option String
  gst_parse_cstring : P → List Byte → P × Nat
  gst_parse_consume : P → V

/-- The part of the virtual machine `Gst` that the client reads: the result
register `vm->ret`, the crash message `vm->crash`, the environment `vm->env`,
and the rest of the machine. -/
structure Gst (V H : Type) where
  ret : V
  crash : Option String
  env : List (String × V)
  heap : H
deriving Repr, DecidableEq

/-- Modelled from the spec: `gst_env_putc` is not part of `src/client/main.c`;
the environment is "a mapping from identifier to value", and the call binds the
identifier to the value, hiding any older binding. -/
def gst_env_putc {V H : Type} (vm : Gst V H) (key : String) (v : V) : Gst V H :=
  { vm with env := (key, v) :: vm.env }

/-- Modelled from the spec: the value that the environment maps an identifier
to. -/
def gst_env_get {V H : Type} (vm : Gst V H) (key : String) : Option V :=
  vm.env.lookup key

/-- The compiler and machine functions called by the client, over values `V`,
machine internals `H`, compiler states `C` and compiled functions `Fn`.
`compiler_error c` is `c.error` when its type is not `GST_NIL`;
`gst_run` gives the machine after the run and whether the returned status is
non-zero. -/
structure VmOps (V H C Fn : Type) where
  gst_compiler : Gst V H → Gst V H × C
  gst_compiler_compile : Gst V H → C → V → Gst V H × C × Fn
  compiler_error : C → Option V
  gst_run : Gst V H → Fn → Gst V H × Bool
  gst_to_string : Gst V H → V → String
  gst_description : Gst V H → V → String

/-- What the client does that can be observed: a `printf`, and a call of
`debug_compile_and_run` with the form, the binding of `_` in the environment
handed to the compiler, the machine after the call and the returned status. -/
inductive Event (V H : Type) where
  | print (text : String) : Event V H
  | exec (ast : V) (underscore : Option V) (after : Gst V H) (rc : Nat) : Event V H
deriving Repr, DecidableEq

/-- The function `debug_compile_and_run` (lines 71-93): the machine after the
call, what was printed, and the returned status. -/
def debug_compile_and_run {V H C Fn : Type} (vops : VmOps V H C Fn) (vm : Gst V H)
    (ast last : V) : Gst V H × List String × Nat :=
  let c0 := vops.gst_compiler vm
  let vm1 := gst_env_putc c0.1 "_" last
  let c1 := vops.gst_compiler_compile vm1 c0.2 ast
  match vops.compiler_error c1.2.1 with
  | some e => (c1.1, ["Compiler error: " ++ vops.gst_to_string c1.1 e ++ "\n"], 1)
  | none =>
    let r := vops.gst_run c1.1 c1.2.2
    if r.2 then
      match r.1.crash with
      | some msg => (r.1, ["VM crash: " ++ msg ++ "\n"], 1)
      | none => (r.1, ["VM error: " ++ vops.gst_to_string r.1 r.1.ret ++ "\n"], 1)
    else (r.1, [], 0)

/-- The binding of `_` in the environment that `debug_compile_and_run` hands to
the compiler (the machine state after line 76). -/
def underscore_at_compile {V H C Fn : Type} (vops : VmOps V H C Fn) (vm : Gst V H)
    (last : V) : Option V :=
  gst_env_get (gst_env_putc (vops.gst_compiler vm).1 "_" last) "_"

/-- The events of one call of `debug_compile_and_run`: the call itself, then
what it printed. -/
def exec_events {V H C Fn : Type} (vops : VmOps V H C Fn) (vm : Gst V H) (ast last : V) :
    List (Event V H) :=
  let r := debug_compile_and_run vops vm ast last
  Event.exec ast (underscore_at_compile vops vm last) r.1 r.2.2 :: r.2.1.map Event.print

/-- A finished call of a driver: returned status, machine, events in order. -/
structure Outcome (V H : Type) where
  status : Nat
  vm : Gst V H
  log : List (Event V H)
deriving Repr, DecidableEq

/-- Put events in front of the log of an outcome. -/
def Outcome.after {V H : Type} (evs : List (Event V H)) (o : Outcome V H) : Outcome V H :=
  { o with log := evs ++ o.log }

/-! ## `debug_run` (lines 96-136) -/

/-- The bytes that `fgets` stores for a buffer with room for `n` characters:
it stops after a newline, at end of file, or when the room is used up. -/
def fgets_take : Nat → List Byte → List Byte × List Byte
  | 0, file => ([], file)
  | _ + 1, [] => ([], [])
  | n + 1, c :: rest =>
    if c = NL then ([c], rest)
    else ((fgets_take n rest).1.cons c, (fgets_take n rest).2)

/-- The call `fgets(buffer, size, in)`: `none` at end of file (a null result),
otherwise the characters stored and the rest of the file. -/
def fgets (size : Nat) (file : List Byte) : Option (List Byte × List Byte) :=
  if file = [] then none else some (fgets_take (size - 1) file)

/-- Lines 106-115, the end of the source: the synthetic newline for a pending
session, then the check that the session is complete. -/
def debug_run_eof {P V H : Type} (pops : ParserOps P V) (vm : Gst V H) (p : P) :
    Outcome V H :=
  let p1 := if pops.status p = GST_PARSER_PENDING then (pops.gst_parse_cstring p [NL]).1 else p
  if pops.status p1 ≠ GST_PARSER_FULL ∧ pops.status p1 ≠ GST_PARSER_ROOT then
    { status := 1, vm := vm, log := [Event.print "Unexpected end of source\n"] }
  else
    { status := 0, vm := vm, log := [] }

/-- The loops of `debug_run`, entered at the test of the inner `while` (line
103) with session `p`, the C string `reader` still to be parsed and the source
`inp`; `refill` is the read that line 105 does.  When the test fails the code
after the inner loop runs (lines 121-133) and the outer loop starts over with
a new session (line 102).  Each pass takes one unit of `fuel`.  A parser that
reports more bytes than it was offered moves `reader` past the terminator; this
gives `none`. -/
def debug_run_loop {P V H C Fn S : Type} (pops : ParserOps P V) (vops : VmOps V H C Fn)
    (refill : S → Option (List Byte × S)) :
    Nat → Gst V H → P → List Byte → S → Option (Outcome V H)
  | 0, _, _, _, _ => none
  | fuel + 1, vm, p, reader, inp =>
    if pops.status p ≠ GST_PARSER_ERROR ∧ pops.status p ≠ GST_PARSER_FULL then
      if reader = [] then
        match refill inp with
        | none => some (debug_run_eof pops vm p)
        | some (chunk, inp1) =>
          let r := pops.gst_parse_cstring p (cstr chunk)
          if r.2 ≤ (cstr chunk).length then
            debug_run_loop pops vops refill fuel vm r.1 ((cstr chunk).drop r.2) inp1
          else none
      else
        let r := pops.gst_parse_cstring p reader
        if r.2 ≤ reader.length then
          debug_run_loop pops vops refill fuel vm r.1 (reader.drop r.2) inp
        else none
    else
      match pops.error p with
      | some msg =>
        some { status := 1, vm := vm, log := [Event.print ("Parse error: " ++ msg ++ "\n")] }
      | none =>
        if pops.status p ≠ GST_PARSER_FULL ∧ pops.status p ≠ GST_PARSER_ROOT then
          some { status := 1, vm := vm, log := [Event.print "Unexpected end of source\n"] }
        else
          let evs := exec_events vops vm (pops.gst_parse_consume p) vm.ret
          let r := debug_compile_and_run vops vm (pops.gst_parse_consume p) vm.ret
          if r.2.2 ≠ 0 then some { status := 1, vm := r.1, log := evs }
          else (debug_run_loop pops vops refill fuel r.1 pops.gst_parser_init reader inp).map
            (Outcome.after evs)

/-- The function `debug_run` on an open file with the given contents: the
buffer starts out empty, the session is new, and line 105 reads with
`fgets(buffer, 2048, in)`. -/
def debug_run {P V H C Fn : Type} (pops : ParserOps P V) (vops : VmOps V H C Fn)
    (fuel : Nat) (vm : Gst V H) (file : List Byte) : Option (Outcome V H) :=
  debug_run_loop pops vops (fgets 2048) fuel vm pops.gst_parser_init [] file

/-- A source that hands out the given chunks, one for each read. -/
def next_chunk : List (List Byte) → Option (List Byte × List (List Byte))
  | [] => none
  | c :: cs => some (c, cs)

/-- The loops of `debug_run` over a source whose successive reads deliver the
given chunks. -/
def debug_run_chunks {P V H C Fn : Type} (pops : ParserOps P V) (vops : VmOps V H C Fn)
    (fuel : Nat) (vm : Gst V H) (chunks : List (List Byte)) : Option (Outcome V H) :=
  debug_run_loop pops vops next_chunk fuel vm pops.gst_parser_init [] chunks

/-! ## `debug_repl` (lines 139-184) -/

/-- Bit of `flags` for `--help`. -/
def GST_CLIENT_HELP : Nat := 1
/-- Bit of `flags` for `--verbose`. -/
def GST_CLIENT_VERBOSE : Nat := 2
/-- Bit of `flags` for `--version`. -/
def GST_CLIENT_VERSION : Nat := 4
/-- Bit of `flags` for `--repl`. -/
def GST_CLIENT_REPL : Nat := 8
/-- Bit of `flags` for `--nocolor`. -/
def GST_CLIENT_NOCOLOR : Nat := 16
/-- Bit of `flags` for an option that is not known. -/
def GST_CLIENT_UNKNOWN : Nat := 32

/-- What the REPL does that can be observed: the events of a driver, and a call
of `gst_getline` with its result. -/
inductive ReplEvent (V H : Type) where
  | ev (e : Event V H) : ReplEvent V H
  | getline (result : LineResult) : ReplEvent V H
deriving Repr, DecidableEq

/-- A finished call of `debug_repl`. -/
structure ReplOutcome (V H : Type) where
  status : Nat
  vm : Gst V H
  log : List (ReplEvent V H)
deriving Repr, DecidableEq

/-- Put events in front of the log of a REPL outcome. -/
def ReplOutcome.after {V H : Type} (evs : List (ReplEvent V H)) (o : ReplOutcome V H) :
    ReplOutcome V H :=
  { o with log := evs ++ o.log }

/-- The prompt of lines 151-155. -/
def repl_prompt (flags : Nat) : String :=
  if flags &&& GST_CLIENT_NOCOLOR ≠ 0 then ">>> " else "\x1B[33m>>>\x1B[0m "

/-- The line that shows a result (lines 177-181). -/
def repl_show (flags : Nat) (text : String) : String :=
  if flags &&& GST_CLIENT_NOCOLOR ≠ 0 then text ++ "\n" else "\x1B[36m" ++ text ++ "\x1B[0m\n"

/-- Lines 165-182, the code after the inner loop of `debug_repl`: the machine,
the value of `reader` (`none` is the null pointer) and the events with which
the outer loop starts over. -/
def debug_repl_tail {P V H C Fn : Type} (pops : ParserOps P V) (vops : VmOps V H C Fn)
    (flags : Nat) (vm : Gst V H) (p : P) (reader : Option (List Byte)) :
    Gst V H × Option (List Byte) × List (ReplEvent V H) :=
  match pops.error p with
  | some msg => (vm, none, [.ev (.print ("Parse error: " ++ msg ++ "\n"))])
  | none =>
    if pops.status p ≠ GST_PARSER_FULL ∧ pops.status p ≠ GST_PARSER_ROOT then
      (vm, reader, [.ev (.print "Unexpected end of source\n")])
    else
      let evs := (exec_events vops vm (pops.gst_parse_consume p) vm.ret).map ReplEvent.ev
      let r := debug_compile_and_run vops vm (pops.gst_parse_consume p) vm.ret
      if r.2.2 = 0 then
        (r.1, reader,
          evs ++ [.ev (.print (repl_show flags (vops.gst_description r.1 r.1.ret)))])
      else (r.1, reader, evs)

/-- The loops of `debug_repl`, entered at the test of the inner `while` (line
146) with session `p`, the C string at `reader` (`none` for the null pointer)
and the bytes still to come on standard input.  Each pass takes one unit of
`fuel`; `junk` and `alloc` are the uninitialised heap byte and the allocator of
`gst_getline`.  Freeing the old line (lines 156-157) is not modelled. -/
def debug_repl_loop {P V H C Fn : Type} (pops : ParserOps P V) (vops : VmOps V H C Fn)
    (junk : Byte) (alloc : Nat → Bool) (flags : Nat) :
    Nat → Gst V H → P → Option (List Byte) → List Byte → Option (ReplOutcome V H)
  | 0, _, _, _, _ => none
  | fuel + 1, vm, p, reader, stdin =>
    if pops.status p ≠ GST_PARSER_ERROR ∧ pops.status p ≠ GST_PARSER_FULL then
      let p1 := (pops.gst_parse_cstring p [NL]).1
      if pops.status p1 = GST_PARSER_ERROR ∨ pops.status p1 = GST_PARSER_FULL then
        let t := debug_repl_tail pops vops flags vm p1 reader
        (debug_repl_loop pops vops junk alloc flags fuel t.1 pops.gst_parser_init t.2.1 stdin).map
          (ReplOutcome.after t.2.2)
      else
        if reader = none ∨ reader = some [] then
          let prompt : ReplEvent V H := .ev (.print (repl_prompt flags))
          match (gst_getline junk alloc stdin).1 with
          | .null => some { status := 0, vm := vm, log := [prompt, .getline .null] }
          | .fault => none
          | .line buf =>
            if cstr buf = [] then
              some { status := 0, vm := vm, log := [prompt, .getline (.line buf)] }
            else
              let r := pops.gst_parse_cstring p1 (cstr buf)
              if r.2 ≤ (cstr buf).length then
                (debug_repl_loop pops vops junk alloc flags fuel vm r.1
                  (some ((cstr buf).drop r.2)) (gst_getline junk alloc stdin).2).map
                  (ReplOutcome.after [prompt, .getline (.line buf)])
              else none
        else
          let r := pops.gst_parse_cstring p1 (reader.getD [])
          if r.2 ≤ (reader.getD []).length then
            debug_repl_loop pops vops junk alloc flags fuel vm r.1
              (some ((reader.getD []).drop r.2)) stdin
          else none
    else
      let t := debug_repl_tail pops vops flags vm p reader
      (debug_repl_loop pops vops junk alloc flags fuel t.1 pops.gst_parser_init t.2.1 stdin).map
        (ReplOutcome.after t.2.2)

/-- The function `debug_repl`: `buffer` and `reader` start out null and the
session is new. -/
def debug_repl {P V H C Fn : Type} (pops : ParserOps P V) (vops : VmOps V H C Fn)
    (junk : Byte) (alloc : Nat → Bool) (fuel : Nat) (vm : Gst V H) (flags : Nat)
    (stdin : List Byte) : Option (ReplOutcome V H) :=
  debug_repl_loop pops vops junk alloc flags fuel vm pops.gst_parser_init none stdin

/-! ## `client_strequal` and `main` (lines 27-31 and 186-282) -/

/-- The function `client_strequal` on two C strings (lines 27-31): it walks
both while `a` has characters and compares the terminators at the end. -/
def client_strequal : List Char → List Char → Bool
  | [], [] => true
  | [], _ :: _ => false
  | _ :: _, [] => false
  | x :: a, y :: b => if x ≠ y then false else client_strequal a b

/-- The `switch` of lines 217-236 applied to the characters after the dash. -/
def main_short_flags : Nat → List Char → Nat
  | flags, [] => flags
  | flags, c :: rest =>
    if c = 'h' then main_short_flags (flags ||| GST_CLIENT_HELP) rest
    else if c = 'v' then main_short_flags (flags ||| GST_CLIENT_VERSION) rest
    else if c = 'V' then main_short_flags (flags ||| GST_CLIENT_VERBOSE) rest
    else if c = 'r' then main_short_flags (flags ||| GST_CLIENT_REPL) rest
    else if c = 'c' then main_short_flags (flags ||| GST_CLIENT_NOCOLOR) rest
    else main_short_flags (flags ||| GST_CLIENT_UNKNOWN) rest

/-- The body of the first loop of `main` for one argument (lines 195-239). -/
def main_arg (flags : Nat) (arg : List Char) : Nat :=
  match arg with
  | '-' :: '-' :: opt =>
    if client_strequal opt "help".toList then flags ||| GST_CLIENT_HELP
    else if client_strequal opt "version".toList then flags ||| GST_CLIENT_VERSION
    else if client_strequal opt "verbose".toList then flags ||| GST_CLIENT_VERBOSE
    else if client_strequal opt "repl".toList then flags ||| GST_CLIENT_REPL
    else if client_strequal opt "nocolor".toList then flags ||| GST_CLIENT_NOCOLOR
    else flags ||| GST_CLIENT_UNKNOWN
  | '-' :: group => main_short_flags flags group
  | _ => flags

/-- The first loop of `main` (lines 194-240) over `argv[1]`, `argv[2]`, ... -/
def main_flags (args : List (List Char)) : Nat :=
  args.foldl main_arg 0

/-- What `main` does that can be observed: printing the usage text or the
version, setting up and tearing down the machine, and the calls of the two
drivers with what they returned. -/
inductive MainEvent (V H : Type) where
  | usage (prog : List Char) : MainEvent V H
  | version : MainEvent V H
  | gst_init : MainEvent V H
  | debug_run (file : List Char) (result : Outcome V H) : MainEvent V H
  | debug_repl (result : ReplOutcome V H) : MainEvent V H
  | gst_deinit : MainEvent V H
deriving Repr, DecidableEq

/-- What `main` needs from outside: the parser, the compiler and the machine,
the machine as `gst_init` and `gst_stl_load` leave it, the files that `fopen`
finds, standard input, the heap of `gst_getline`, and the step budget of each
driver call. -/
structure World (P V H C Fn : Type) where
  pops : ParserOps P V
  vops : VmOps V H C Fn
  vm0 : Gst V H
  fopen : List Char → Option (List Byte)
  stdin : List Byte
  junk : Byte
  alloc : Nat → Bool
  fuel : Nat

/-- The second loop of `main` (lines 265-273) from the argument list `args`
on, with the current values of `status`, `fileRead` and the machine.  A file
that `fopen` does not find gives a null stream, on which `fgets` is not
defined: the result is `none`, as it is when a driver runs out of steps. -/
def main_files {P V H C Fn : Type} (w : World P V H C Fn) :
    List (List Char) → Int → Bool → Gst V H →
      Option (Int × Bool × Gst V H × List (MainEvent V H))
  | [], status, fileRead, vm => some (status, fileRead, vm, [])
  | arg :: args, status, fileRead, vm =>
    if arg.head? ≠ some '-' then
      match w.fopen arg with
      | none => none
      | some file =>
        match debug_run w.pops w.vops w.fuel vm file with
        | none => none
        | some o =>
          (main_files w args (o.status : Int) true o.vm).map
            (fun r => (r.1, r.2.1, r.2.2.1, MainEvent.debug_run arg o :: r.2.2.2))
    else main_files w args status fileRead vm

/-- The function `main` on `argv` (program name first): the returned status
and the events in order. -/
def main {P V H C Fn : Type} (w : World P V H C Fn) (argv : List (List Char)) :
    Option (Int × List (MainEvent V H)) :=
  let flags := main_flags argv.tail
  if flags &&& GST_CLIENT_HELP ≠ 0 ∨ flags &&& GST_CLIENT_UNKNOWN ≠ 0 then
    some (0, [MainEvent.usage argv.headI])
  else if flags &&& GST_CLIENT_VERSION ≠ 0 then
    some (0, [MainEvent.version])
  else
    match main_files w argv.tail (-1) false w.vm0 with
    | none => none
    | some (status, fileRead, vm, evs) =>
      if ¬ fileRead ∨ flags &&& GST_CLIENT_REPL ≠ 0 then
        match debug_repl w.pops w.vops w.junk w.alloc w.fuel vm flags w.stdin with
        | none => none
        | some o =>
          some ((o.status : Int),
            MainEvent.gst_init :: evs ++ [MainEvent.debug_repl o, MainEvent.gst_deinit])
      else some (status, MainEvent.gst_init :: evs ++ [MainEvent.gst_deinit])

/-! ## Parsers that read one byte at a time -/

/-- A feed that hands the bytes of the C string to `dispatch` one at a time for
as long as the session is `PENDING` or `ROOT`, and reports how many it handed
over. -/
def gst_parse_bytes {P : Type} (status : P → GstParserStatus) (dispatch : P → Byte → P) :
    P → List Byte → P × Nat
  | p, [] => (p, 0)
  | p, c :: rest =>
    if status p = GST_PARSER_PENDING ∨ status p = GST_PARSER_ROOT then
      ((gst_parse_bytes status dispatch (dispatch p c) rest).1,
        (gst_parse_bytes status dispatch (dispatch p c) rest).2 + 1)
    else (p, 0)

/-- The parser `pops` reads one byte at a time, with `dispatch` as the step. -/
def ByteWise {P V : Type} (pops : ParserOps P V) (dispatch : P → Byte → P) : Prop :=
  ∀ p s, pops.gst_parse_cstring p s = gst_parse_bytes pops.status dispatch p s

/-! ## A small parser and machine for the examples -/

/-- Session of the example parser: forms are words separated by blanks or
newlines, a closing parenthesis outside a word is an error. -/
structure WordParser where
  status : GstParserStatus
  token : List Byte
  value : List Byte
  error : Option String
deriving Repr, DecidableEq

/-- One byte for the example parser. -/
def word_dispatch (p : WordParser) (c : Byte) : WordParser :=
  if c = 32 ∨ c = NL then
    if p.status = GST_PARSER_PENDING then
      { p with status := GST_PARSER_FULL, value := p.token, token := [] }
    else p
  else if c = 41 ∧ p.status = GST_PARSER_ROOT then
    { p with status := GST_PARSER_ERROR, error := some "unexpected closing delimiter" }
  else { p with status := GST_PARSER_PENDING, token := p.token ++ [c] }

/-- The example parser. -/
def wordParser : ParserOps WordParser (List Byte) where
  gst_parser_init := { status := GST_PARSER_ROOT, token := [], value := [], error := none }
  status := fun p => p.status
  error := fun p => p.error
  gst_parse_cstring := gst_parse_bytes (fun p => p.status) word_dispatch
  gst_parse_consume := fun p => p.value

/-- The example machine: a word that starts with `?` (63) does not compile, a
word that starts with `!` (33) raises an error value, every other word runs
and leaves itself in `vm->ret`. -/
def wordVm : VmOps (List Byte) Unit (Option (List Byte)) (List Byte) where
  gst_compiler := fun vm => (vm, none)
  gst_compiler_compile := fun vm _ ast =>
    (vm, if ast.head? = some 63 then some ast else none, ast)
  compiler_error := fun c => c
  gst_run := fun vm fn => ({ vm with ret := fn }, decide (fn.head? = some 33))
  gst_to_string := fun _ v => String.mk (v.map (fun b => Char.ofNat b.val))
  gst_description := fun _ v => String.mk (v.map (fun b => Char.ofNat b.val))

/-- The example machine before the first form. -/
def wordVm0 : Gst (List Byte) Unit := { ret := [], crash := none, env := [], heap := () }

/-- The `exec` events of a log, in order: binding of `_`, machine afterwards,
status. -/
def execs {V H : Type} : List (Event V H) → List (Option V × Gst V H × Nat)
  | [] => []
  | .print _ :: l => execs l
  | .exec _ u vm rc :: l => (u, vm, rc) :: execs l

/-- The driver events of a REPL log. -/
def repl_events {V H : Type} : List (ReplEvent V H) → List (Event V H)
  | [] => []
  | .ev e :: l => e :: repl_events l
  | .getline _ :: l => repl_events l

/-- The forms handed to `debug_compile_and_run`, in order. -/
def executed {V H : Type} : List (Event V H) → List V
  | [] => []
  | .print _ :: l => executed l
  | .exec ast _ _ _ :: l => ast :: executed l

/-- The outcome of the example run on the file with the lines `!` and `2`. -/
def failedRun : Outcome (List Byte) Unit :=
  { status := 1, vm := { ret := [33], crash := none, env := [("_", [])], heap := () },
    log := [Event.exec [33] (some [])
              { ret := [33], crash := none, env := [("_", [])], heap := () } 1,
            Event.print "VM error: !\n"] }

/-- The outcome of the example REPL session on the input `)` newline, end of
input: a parse error on the first line, then the end of input. -/
def replRun : ReplOutcome (List Byte) Unit :=
  { status := 0, vm := wordVm0,
    log := [.ev (.print ">>> "),
            .getline (.line ([41, 10, 0] ++ List.replicate 97 7)),
            .ev (.print "Parse error: unexpected closing delimiter\n"),
            .ev (.print ">>> "),
            .getline (.line ([0] ++ List.replicate 99 7))] }

/-- In a REPL log every successful `exec` event is directly followed by the
print of `render` applied to the machine after the call. -/
def ShownAfterExec {V H : Type} (render : Gst V H → String) : List (ReplEvent V H) → Prop
  | [] => True
  | .ev (.exec _ _ vm1 rc) :: rest =>
    (rc = 0 → ∃ rest1, rest = .ev (.print (render vm1)) :: rest1) ∧ ShownAfterExec render rest
  | .ev (.print _) :: rest => ShownAfterExec render rest
  | .getline _ :: rest => ShownAfterExec render rest

/-- Binding propagation between two consecutive `exec` events: when the first
call returned 0, the `_` of the second is the `vm->ret` left by the first. -/
def Propagates {V H : Type} (e1 e2 : Option V × Gst V H × Nat) : Prop :=
  e1.2.2 = 0 → e2.1 = some e1.2.1.ret

/-- The outcome of the example REPL session on the single line `1 2`: two
forms, the second compiled with `_` bound to the result of the first. -/
def replTwoForms : ReplOutcome (List Byte) Unit :=
  { status := 0,
    vm := { ret := [50], crash := none, env := [("_", [49]), ("_", [])], heap := () },
    log := [.ev (.print ">>> "),
            .getline (.line ([49, 32, 50, 10, 0] ++ List.replicate 95 7)),
            .ev (.exec [49] (some [])
              { ret := [49], crash := none, env := [("_", [])], heap := () } 0),
            .ev (.print "1\n"),
            .ev (.exec [50] (some [49])
              { ret := [50], crash := none, env := [("_", [49]), ("_", [])], heap := () } 0),
            .ev (.print "2\n"),
            .ev (.print ">>> "),
            .getline (.line ([0] ++ List.replicate 99 7))] }

/-! ## The command line, in the words of the specification -/

/-- The argument is a group of short flags: a dash followed by the characters
`g`, the first of which is not a dash. -/
def shortGroup (arg g : List Char) : Prop := arg = '-' :: g ∧ g.head? ≠ some '-'

/-- A help flag: `--help`, or a short-flag group that contains `h`. -/
def helpFlag (arg : List Char) : Prop :=
  arg = "--help".toList ∨ ∃ g, shortGroup arg g ∧ 'h' ∈ g

/-- A version flag: `--version`, or a short-flag group that contains `v`. -/
def versionFlag (arg : List Char) : Prop :=
  arg = "--version".toList ∨ ∃ g, shortGroup arg g ∧ 'v' ∈ g

/-- A REPL flag: `--repl`, or a short-flag group that contains `r`. -/
def replFlag (arg : List Char) : Prop :=
  arg = "--repl".toList ∨ ∃ g, shortGroup arg g ∧ 'r' ∈ g

/-- An unknown flag: a long option that is none of the five known ones, or a
short-flag group with a character other than `h`, `v`, `V`, `r`, `c`. -/
def unknownFlag (arg : List Char) : Prop :=
  (∃ opt, arg = '-' :: '-' :: opt ∧ opt ≠ "help".toList ∧ opt ≠ "version".toList ∧
      opt ≠ "verbose".toList ∧ opt ≠ "repl".toList ∧ opt ≠ "nocolor".toList) ∨
  ∃ g, shortGroup arg g ∧ ∃ c ∈ g, c ≠ 'h' ∧ c ≠ 'v' ∧ c ≠ 'V' ∧ c ≠ 'r' ∧ c ≠ 'c'

/-- The bit that the `switch` of lines 217-236 sets for one character. -/
def short_flag_bit (c : Char) : Nat :=
  if c = 'h' then GST_CLIENT_HELP
  else if c = 'v' then GST_CLIENT_VERSION
  else if c = 'V' then GST_CLIENT_VERBOSE
  else if c = 'r' then GST_CLIENT_REPL
  else if c = 'c' then GST_CLIENT_NOCOLOR
  else GST_CLIENT_UNKNOWN

/-- The bit that lines 200-212 set for the long option `--opt`. -/
def long_option_bit (opt : List Char) : Nat :=
  if client_strequal opt "help".toList then GST_CLIENT_HELP
  else if client_strequal opt "version".toList then GST_CLIENT_VERSION
  else if client_strequal opt "verbose".toList then GST_CLIENT_VERBOSE
  else if client_strequal opt "repl".toList then GST_CLIENT_REPL
  else if client_strequal opt "nocolor".toList then GST_CLIENT_NOCOLOR
  else GST_CLIENT_UNKNOWN

/-- The statuses that the driver calls in a log of `main` returned, in order. -/
def driver_statuses {V H : Type} : List (MainEvent V H) → List Int
  | [] => []
  | .debug_run _ o :: l => (o.status : Int) :: driver_statuses l
  | .debug_repl o :: l => (o.status : Int) :: driver_statuses l
  | _ :: l => driver_statuses l

/-- The world of the examples: the example parser and machine, a file `bad`
with the failing form `!`, a file `good` with the form `1`, and an empty
standard input. -/
def exampleWorld :
    World WordParser (List Byte) Unit (Option (List Byte)) (List Byte) where
  pops := wordParser
  vops := wordVm
  vm0 := wordVm0
  fopen := fun name =>
    if name = "bad".toList then some [33, 10]
    else if name = "good".toList then some [49, 10]
    else none
  stdin := []
  junk := 7
  alloc := fun _ => true
  fuel := 50

/-- The events of `main` in the example world for the arguments `bad good`. -/
def exampleMainLog : List (MainEvent (List Byte) Unit) :=
  [MainEvent.gst_init,
   MainEvent.debug_run "bad".toList failedRun,
   MainEvent.debug_run "good".toList
     { status := 0,
       vm := { ret := [49], crash := none, env := [("_", [33]), ("_", [])], heap := () },
       log := [Event.exec [49] (some [33])
                 { ret := [49], crash := none, env := [("_", [33]), ("_", [])], heap := () } 0] },
   MainEvent.gst_deinit]

/-! ## The batch driver with the whole source in the buffer -/

/-- Lines 121-133 of `debug_run`, with `next` standing for the following pass
of the outer loop on the machine that the form leaves. -/
def debug_run_after {P V H C Fn : Type} (pops : ParserOps P V) (vops : VmOps V H C Fn)
    (vm : Gst V H) (p : P) (next : Gst V H → Option (Outcome V H)) : Option (Outcome V H) :=
  match pops.error p with
  | some msg =>
    some { status := 1, vm := vm, log := [Event.print ("Parse error: " ++ msg ++ "\n")] }
  | none =>
    if pops.status p ≠ GST_PARSER_FULL ∧ pops.status p ≠ GST_PARSER_ROOT then
      some { status := 1, vm := vm, log := [Event.print "Unexpected end of source\n"] }
    else
      if (debug_compile_and_run vops vm (pops.gst_parse_consume p) vm.ret).2.2 ≠ 0 then
        some { status := 1,
               vm := (debug_compile_and_run vops vm (pops.gst_parse_consume p) vm.ret).1,
               log := exec_events vops vm (pops.gst_parse_consume p) vm.ret }
      else
        (next (debug_compile_and_run vops vm (pops.gst_parse_consume p) vm.ret).1).map
          (Outcome.after (exec_events vops vm (pops.gst_parse_consume p) vm.ret))

/-- The run of `debug_run` on a source that is handed to the parser in one
piece: each pass feeds the rest of the source `bytes` to the session, ends the
run when the session is neither `ERROR` nor `FULL` afterwards (the source is
used up), and otherwise does lines 121-133 and goes on with a new session
behind the bytes that were read. -/
def debug_run_bytes {P V H C Fn : Type} (pops : ParserOps P V) (vops : VmOps V H C Fn) :
    Nat → Gst V H → P → List Byte → Option (Outcome V H)
  | 0, _, _, _ => none
  | fuel + 1, vm, p, bytes =>
    if pops.status (pops.gst_parse_cstring p bytes).1 ≠ GST_PARSER_ERROR ∧
        pops.status (pops.gst_parse_cstring p bytes).1 ≠ GST_PARSER_FULL then
      some (debug_run_eof pops vm (pops.gst_parse_cstring p bytes).1)
    else
      debug_run_after pops vops vm (pops.gst_parse_cstring p bytes).1
        (fun vm1 => debug_run_bytes pops vops fuel vm1 pops.gst_parser_init
          (bytes.drop (pops.gst_parse_cstring p bytes).2))

/-- The session can take more bytes: it is `PENDING` or `ROOT`. -/
def Accepting {P V : Type} (pops : ParserOps P V) (p : P) : Prop :=
  pops.status p ≠ GST_PARSER_ERROR ∧ pops.status p ≠ GST_PARSER_FULL

/-! # Theorems -/

/-! ## The line reader -/

theorem take_succ_set {α : Type} (l : List α) (i : Nat) (c : α) (h : i < l.length) :
    (l.set i c).take (i + 1) = l.take i ++ [c] := by
  induction l generalizing i with
  | nil => simp at h
  | cons a l ih =>
    cases i with
    | zero => simp
    | succ i =>
      simp only [List.length_cons, Nat.add_lt_add_iff_right] at h
      simp [ih i h]

theorem getElem_set_self_opt {α : Type} (l : List α) (i : Nat) (c : α) (h : i < l.length) :
    (l.set i c)[i]? = some c := by
  simp [List.getElem?_set, h]

theorem lineInv_init (junk : Byte) : LineInv (gst_getline_init junk) := by
  refine ⟨by simp [gst_getline_init], by simp [gst_getline_init], by simp [gst_getline_init],
    ⟨0, by simp [gst_getline_init]⟩, by simp [gst_getline_init]⟩

/-- One pass through the loop body keeps the invariant, appends the byte and
never writes outside the block. -/
theorem store_spec (junk : Byte) (alloc : Nat → Bool) (s : LineState) (c : Byte)
    (hI : LineInv s) (hA : AllocBounded alloc) :
    (gst_getline_store junk alloc s c = .null ∧ alloc (2 * (s.pos + 1)) = false) ∨
    ∃ s1, gst_getline_store junk alloc s c = .ok s1 ∧ LineInv s1 ∧ s1.pos = s.pos + 1 ∧
      s1.mem.take (s.pos + 1) = s.mem.take s.pos ++ [c] := by
  obtain ⟨hm, hpl, hl, ⟨k, hk⟩, hcap⟩ := hI
  have hlt : s.len < 2 ^ 64 := by omega
  have hlen1 : size_dec s.len = s.len - 1 := by
    simp only [size_dec]; rw [if_neg (by omega)]
  unfold gst_getline_store
  simp only [hlen1]
  by_cases h1 : s.len - 1 = 0
  · have hlen : s.len = 1 := by omega
    have hdouble : (s.lenmax * 2) % SIZE_MOD = s.lenmax * 2 :=
      Nat.mod_eq_of_lt (by simp only [SIZE_MOD]; omega)
    simp only [h1, if_true, hdouble]
    cases ha : alloc (s.lenmax * 2) with
    | false =>
      refine Or.inl ⟨by simp, ?_⟩
      rw [show 2 * (s.pos + 1) = s.lenmax * 2 by omega]
      exact ha
    | true =>
      right
      have hlen2 : (realloc_block junk s.mem (s.lenmax * 2)).length = s.lenmax * 2 := by
        simp [realloc_block, hm]; omega
      have hpos : s.pos < (realloc_block junk s.mem (s.lenmax * 2)).length := by omega
      refine ⟨_, by simp only [if_true, hpos]; rfl, ?_, rfl, ?_⟩
      · have h63 := hA _ ha
        refine ⟨by simp [hlen2], by simp; omega, by simp; omega, ⟨k + 1, ?_⟩, h63⟩
        simp [hk, pow_succ]; ring
      · simp only
        rw [take_succ_set _ _ _ hpos]
        have h2 : s.mem.take (s.lenmax * 2) = s.mem := List.take_of_length_le (by omega)
        have h3 : (realloc_block junk s.mem (s.lenmax * 2)).take s.pos = s.mem.take s.pos := by
          simp only [realloc_block, h2]
          exact List.take_append_of_le_length (by omega)
        rw [h3]
  · right
    have hpos : s.pos < s.mem.length := by omega
    simp only [h1, if_false, hpos, if_true]
    refine ⟨_, rfl, ?_, rfl, ?_⟩
    · exact ⟨by simp [hm], by simp; omega, by simp; omega, ⟨k, hk⟩, hcap⟩
    · exact take_succ_set _ _ _ hpos

theorem take_set_self {α : Type} (l : List α) (i : Nat) (c : α) :
    (l.set i c).take i = l.take i := by
  induction l generalizing i with
  | nil => simp
  | cons a l ih =>
    cases i with
    | zero => simp
    | succ i => simp [ih i]

theorem finish_spec (s : LineState) (hI : LineInv s) :
    ∃ buf, gst_getline_finish s = .line buf ∧ buf.take s.pos = s.mem.take s.pos ∧
      buf[s.pos]? = some NUL := by
  obtain ⟨hm, hpl, hl, -, -⟩ := hI
  have hpos : s.pos < s.mem.length := by omega
  refine ⟨s.mem.set s.pos NUL, by simp [gst_getline_finish, hpos], take_set_self _ _ _, ?_⟩
  exact getElem_set_self_opt _ _ _ hpos

theorem loop_nil (junk : Byte) (alloc : Nat → Bool) (s : LineState) :
    gst_getline_loop junk alloc s [] = (gst_getline_finish s, [], [s]) := rfl

theorem loop_cons (junk : Byte) (alloc : Nat → Bool) (s : LineState) (c : Byte)
    (rest : List Byte) :
    gst_getline_loop junk alloc s (c :: rest) =
      match gst_getline_store junk alloc s c with
      | .null => (.null, rest, [s])
      | .fault => (.fault, rest, [s])
      | .ok s1 =>
        if c = NL then (gst_getline_finish s1, rest, [s, s1])
        else
          ((gst_getline_loop junk alloc s1 rest).1, (gst_getline_loop junk alloc s1 rest).2.1,
            s :: (gst_getline_loop junk alloc s1 rest).2.2) := rfl

/-- The read loop from any state that satisfies the invariant: every state at
the loop head satisfies it again, no write leaves the block, and unless an
allocation fails the block holds the old bytes followed by the line. -/
theorem loop_spec (junk : Byte) (alloc : Nat → Bool) (hA : AllocBounded alloc)
    (rest : List Byte) :
    ∀ s : LineState, LineInv s →
      (∀ t ∈ (gst_getline_loop junk alloc s rest).2.2, LineInv t) ∧
      (gst_getline_loop junk alloc s rest).1 ≠ .fault ∧
      (((gst_getline_loop junk alloc s rest).1 = .null ∧
          ∃ n, n ≤ 2 * (s.pos + (firstLine rest).length) ∧ alloc n = false) ∨
        ∃ buf, (gst_getline_loop junk alloc s rest).1 = .line buf ∧
          buf.take (s.pos + (firstLine rest).length) = s.mem.take s.pos ++ firstLine rest ∧
          buf[s.pos + (firstLine rest).length]? = some NUL ∧
          (gst_getline_loop junk alloc s rest).2.1 = rest.drop (firstLine rest).length) := by
  induction rest with
  | nil =>
    intro s hI
    obtain ⟨buf, h1, h2, h3⟩ := finish_spec s hI
    simp only [loop_nil, firstLine, List.length_nil, Nat.add_zero, List.append_nil,
      List.drop_nil, List.mem_singleton, forall_eq]
    refine ⟨hI, by simp [h1], Or.inr ⟨buf, h1, h2, h3, trivial⟩⟩
  | cons c rest ih =>
    intro s hI
    rcases store_spec junk alloc s c hI hA with ⟨h0, hn⟩ | ⟨s1, h0, hI1, hp1, hm1⟩
    · simp only [loop_cons, h0]
      have hfl : 1 ≤ (firstLine (c :: rest)).length := by
        simp only [firstLine]
        split_ifs <;> simp
      exact ⟨by simpa using hI, by simp, Or.inl ⟨trivial, _, by omega, hn⟩⟩
    · by_cases hc : c = NL
      · obtain ⟨buf, h1, h2, h3⟩ := finish_spec s1 hI1
        rw [loop_cons, h0]
        simp only [hc, if_true, firstLine, List.length_singleton]
        refine ⟨by simp [hI, hI1], by simp [h1], Or.inr ⟨buf, h1, ?_, ?_, by simp⟩⟩
        · rw [← hp1, h2, hp1, hm1, hc]
        · rw [← hp1]; exact h3
      · obtain ⟨ht, hf, hres⟩ := ih s1 hI1
        rw [loop_cons, h0]
        simp only [hc, if_false, firstLine, List.length_cons]
        refine ⟨?_, hf, ?_⟩
        · intro t ht1
          rcases List.mem_cons.mp ht1 with h | h
          · exact h ▸ hI
          · exact ht t h
        · rcases hres with hnull | ⟨buf, h1, h2, h3, h4⟩
          · obtain ⟨hn0, n, hle, hn⟩ := hnull
            exact Or.inl ⟨hn0, n, by rw [hp1] at hle; omega, hn⟩
          · refine Or.inr ⟨buf, h1, ?_, ?_, ?_⟩
            · rw [hp1] at h2
              rw [show s.pos + ((firstLine rest).length + 1) = s.pos + 1 + (firstLine rest).length
                by omega, h2, hm1]
              simp
            · rw [hp1] at h3
              rw [show s.pos + ((firstLine rest).length + 1) = s.pos + 1 + (firstLine rest).length
                by omega]
              exact h3
            · simpa using h4

theorem cstr_of_take (l : List Byte) :
    ∀ buf : List Byte, buf.take l.length = l → buf[l.length]? = some NUL →
      (∀ b ∈ l, b ≠ NUL) → cstr buf = l := by
  induction l with
  | nil =>
    intro buf _ h2 _
    cases buf with
    | nil => simp at h2
    | cons a t =>
      simp only [List.length_nil, List.getElem?_cons_zero, Option.some.injEq] at h2
      simp [cstr, h2]
  | cons a l ih =>
    intro buf h1 h2 h3
    cases buf with
    | nil => simp at h1
    | cons x t =>
      simp only [List.length_cons, List.take_succ_cons, List.cons.injEq] at h1
      simp only [List.length_cons, List.getElem?_cons_succ] at h2
      have ha : a ≠ NUL := h3 a (List.mem_cons_self _ _)
      have hl := ih t h1.2 h2 (fun b hb => h3 b (List.mem_cons_of_mem _ hb))
      simp only [cstr] at hl ⊢
      rw [h1.1, List.takeWhile_cons]
      simp [ha, hl]

/-- C7: for every input stream, and with an allocator that never grants
`2 ^ 63` bytes or more, `gst_getline` either returns `NULL` because an
allocation failed (a request of at most 100 bytes plus twice the length of the
line was refused), or returns a block that starts with exactly the bytes of the
stream up to and including the first newline (all remaining bytes when the
stream ends first), followed by a NUL; the bytes after the line stay in the
stream; when the line has no NUL byte it is the C string returned, so at end of
stream with nothing read the returned line is empty. -/
theorem gst_getline_returns_first_line (junk : Byte) (alloc : Nat → Bool)
    (stdin : List Byte) (hA : AllocBounded alloc) :
    ((gst_getline junk alloc stdin).1 = .null ∧
      ∃ n, n ≤ 100 + 2 * (firstLine stdin).length ∧ alloc n = false) ∨
    ∃ buf, gst_getline junk alloc stdin =
        (.line buf, stdin.drop (firstLine stdin).length) ∧
      buf.take (firstLine stdin).length = firstLine stdin ∧
      buf[(firstLine stdin).length]? = some NUL ∧
      ((∀ b ∈ firstLine stdin, b ≠ NUL) → cstr buf = firstLine stdin) ∧
      (stdin = [] → cstr buf = []) := by
  unfold gst_getline
  cases ha : alloc 100 with
  | false => exact Or.inl ⟨by simp, 100, by omega, ha⟩
  | true =>
    obtain ⟨-, -, hres⟩ := loop_spec junk alloc hA stdin (gst_getline_init junk)
      (lineInv_init junk)
    rcases hres with ⟨h1, h2⟩ | ⟨buf, h1, h2, h3, h4⟩
    · obtain ⟨n, hle, hn⟩ := h2
      have hp0 : (gst_getline_init junk).pos = 0 := rfl
      rw [hp0] at hle
      exact Or.inl ⟨by simpa using h1, n, by omega, hn⟩
    · right
      have hp : (gst_getline_init junk).pos = 0 := rfl
      simp only [hp, Nat.zero_add, List.take_zero, List.nil_append] at h2 h3
      have hc : (∀ b ∈ firstLine stdin, b ≠ NUL) → cstr buf = firstLine stdin :=
        cstr_of_take _ buf h2 h3
      refine ⟨buf, ?_, h2, h3, hc, ?_⟩
      · simp only [if_true, Prod.mk.injEq]
        exact ⟨h1, h4⟩
      · intro he
        subst he
        simpa [firstLine] using hc

/-- The allocator used in the examples: it grants every request below
`2 ^ 63` bytes. -/
theorem allocBounded_example : AllocBounded (fun n => decide (n < 2 ^ 63)) := by
  intro n h
  simpa using h

/-- Witness for C7 on the stream `hi`, newline, `x`: the call returns the block
with `hi`, the newline and the NUL, and leaves `x` in the stream. -/
theorem gst_getline_returns_first_line_witness :
    AllocBounded (fun n => decide (n < 2 ^ 63)) ∧
    gst_getline 7 (fun n => decide (n < 2 ^ 63)) [104, 105, 10, 120] =
      (.line ([104, 105, 10, 0] ++ List.replicate 96 7), [120]) ∧
    (((gst_getline 7 (fun n => decide (n < 2 ^ 63)) [104, 105, 10, 120]).1 = .null ∧
        ∃ n, n ≤ 100 + 2 * (firstLine [104, 105, 10, 120]).length ∧
          (fun n => decide (n < 2 ^ 63)) n = false) ∨
      ∃ buf, gst_getline 7 (fun n => decide (n < 2 ^ 63)) [104, 105, 10, 120] =
          (.line buf, ([104, 105, 10, 120] : List Byte).drop
            (firstLine [104, 105, 10, 120]).length) ∧
        buf.take (firstLine [104, 105, 10, 120]).length = firstLine [104, 105, 10, 120] ∧
        buf[(firstLine [104, 105, 10, 120]).length]? = some NUL ∧
        ((∀ b ∈ firstLine [104, 105, 10, 120], b ≠ NUL) →
          cstr buf = firstLine [104, 105, 10, 120]) ∧
        (([104, 105, 10, 120] : List Byte) = [] → cstr buf = [])) :=
  ⟨allocBounded_example, by decide,
    gst_getline_returns_first_line 7 (fun n => decide (n < 2 ^ 63)) [104, 105, 10, 120]
      allocBounded_example⟩

/-- C10: for every input and every allocator that never grants `2 ^ 63` bytes
or more, each state at the head of the read loop of `gst_getline` has
`pos + len = lenmax`, a block of exactly `lenmax` bytes, `lenmax` equal to 100
doubled some number of times, `len` at least 1, and the write offset inside the
block; no store, and not the final NUL either, goes outside the block. -/
theorem gst_getline_buffer_bound (junk : Byte) (alloc : Nat → Bool) (stdin : List Byte)
    (hA : AllocBounded alloc) :
    (∀ s ∈ gst_getline_states junk alloc stdin,
      s.pos + s.len = s.lenmax ∧ s.mem.length = s.lenmax ∧
      (∃ k, s.lenmax = 100 * 2 ^ k) ∧ 1 ≤ s.len ∧ s.pos < s.mem.length) ∧
    (gst_getline junk alloc stdin).1 ≠ .fault := by
  obtain ⟨ht, hf, -⟩ := loop_spec junk alloc hA stdin (gst_getline_init junk)
    (lineInv_init junk)
  constructor
  · intro s hs
    obtain ⟨h1, h2, h3, h4, -⟩ := ht s hs
    exact ⟨h2, h1, h4, h3, by omega⟩
  · unfold gst_getline
    cases alloc 100 with
    | false => simp
    | true => simpa using hf

/-- Witness for C10 on the stream `hi`, newline, `x`. -/
theorem gst_getline_buffer_bound_witness :
    AllocBounded (fun n => decide (n < 2 ^ 63)) ∧
    ((∀ s ∈ gst_getline_states 7 (fun n => decide (n < 2 ^ 63)) [104, 105, 10, 120],
      s.pos + s.len = s.lenmax ∧ s.mem.length = s.lenmax ∧
      (∃ k, s.lenmax = 100 * 2 ^ k) ∧ 1 ≤ s.len ∧ s.pos < s.mem.length) ∧
    (gst_getline 7 (fun n => decide (n < 2 ^ 63)) [104, 105, 10, 120]).1 ≠ .fault) :=
  ⟨allocBounded_example,
    gst_getline_buffer_bound 7 (fun n => decide (n < 2 ^ 63)) [104, 105, 10, 120]
      allocBounded_example⟩

/-! ## The batch driver -/

open GstParserStatus

/-- C1: the file `1` without a final newline, with the example parser. The
session is `PENDING` at the end of the source, the synthetic newline makes it
`FULL`, and `debug_run` returns 0 without any call of `debug_compile_and_run`;
the same form followed by a newline in the file is executed once. -/
theorem debug_run_drops_trailing_form :
    wordParser.status (wordParser.gst_parse_cstring wordParser.gst_parser_init [49]).1
      = GST_PARSER_PENDING ∧
    wordParser.status (wordParser.gst_parse_cstring
      (wordParser.gst_parse_cstring wordParser.gst_parser_init [49]).1 [NL]).1 = GST_PARSER_FULL ∧
    debug_run wordParser wordVm 50 wordVm0 [49] =
      some { status := 0, vm := wordVm0, log := [] } ∧
    (debug_run wordParser wordVm 50 wordVm0 [49, 10]).map (fun o => (o.status, executed o.log))
      = some (0, [[49]]) := by
  decide

/-- C2: when the inner loop of `debug_run` finds the buffer used up and the
read yields nothing, the call returns; it returns 0 and prints nothing exactly
when the session, after the synthetic newline that a `PENDING` session gets, is
`ROOT` or `FULL`, and otherwise prints "Unexpected end of source" and returns 1.
So a source that ends with the session at `ROOT` gives success, and so does the
empty file when a new session is at `ROOT`. -/
theorem debug_run_end_of_source {P V H C Fn S : Type} (pops : ParserOps P V)
    (vops : VmOps V H C Fn) (refill : S → Option (List Byte × S)) (fuel : Nat)
    (vm : Gst V H) (p : P) (inp : S)
    (hs : pops.status p ≠ GST_PARSER_ERROR ∧ pops.status p ≠ GST_PARSER_FULL)
    (hr : refill inp = none) :
    (∃ o, debug_run_loop pops vops refill (fuel + 1) vm p [] inp = some o ∧ o.vm = vm ∧
      ((o.status = 0 ∧ Event.print "Unexpected end of source\n" ∉ o.log) ↔
        (pops.status (if pops.status p = GST_PARSER_PENDING then
            (pops.gst_parse_cstring p [NL]).1 else p) = GST_PARSER_ROOT ∨
          pops.status (if pops.status p = GST_PARSER_PENDING then
            (pops.gst_parse_cstring p [NL]).1 else p) = GST_PARSER_FULL)) ∧
      ((o.status = 0 ∧ o.log = []) ∨
        (o.status = 1 ∧ o.log = [Event.print "Unexpected end of source\n"]))) ∧
    (pops.status p = GST_PARSER_ROOT →
      debug_run_loop pops vops refill (fuel + 1) vm p [] inp =
        some { status := 0, vm := vm, log := [] }) ∧
    (pops.status pops.gst_parser_init = GST_PARSER_ROOT →
      debug_run pops vops (fuel + 1) vm [] = some { status := 0, vm := vm, log := [] }) := by
  have hloop : debug_run_loop pops vops refill (fuel + 1) vm p [] inp =
      some (debug_run_eof pops vm p) := by
    simp only [debug_run_loop, hs, hr, ne_eq, not_false_eq_true, and_self, if_true]
  refine ⟨⟨debug_run_eof pops vm p, hloop, ?_, ?_, ?_⟩, ?_, ?_⟩
  · unfold debug_run_eof
    simp only
    split_ifs <;> rfl
  · unfold debug_run_eof
    simp only
    split_ifs with h1 h2 h2
    · simp only [h1, if_true] at h2 ⊢
      simp [h2.1, h2.2]
    · simp only [h1, if_true] at h2 ⊢
      simp only [List.not_mem_nil, not_false_eq_true, and_self, true_iff]
      by_contra hc
      exact h2 ⟨fun h => hc (Or.inr h), fun h => hc (Or.inl h)⟩
    · simp only [h1, if_false] at h2 ⊢
      simp [h2.1, h2.2]
    · simp only [h1, if_false] at h2 ⊢
      simp only [List.not_mem_nil, not_false_eq_true, and_self, true_iff]
      by_contra hc
      exact h2 ⟨fun h => hc (Or.inr h), fun h => hc (Or.inl h)⟩
  · unfold debug_run_eof
    simp only
    split_ifs <;> simp
  · intro hroot
    rw [hloop]
    simp [debug_run_eof, hroot]
  · intro hroot
    have h0 : pops.status pops.gst_parser_init ≠ GST_PARSER_ERROR ∧
        pops.status pops.gst_parser_init ≠ GST_PARSER_FULL := by simp [hroot]
    simp [debug_run, debug_run_loop, h0, fgets, debug_run_eof, hroot]

/-- Witness for C2: the example parser in the middle of the word `1` at the end
of the file. -/
theorem debug_run_end_of_source_witness :
    (wordParser.status (wordParser.gst_parse_cstring wordParser.gst_parser_init [49]).1
        ≠ GST_PARSER_ERROR ∧
      wordParser.status (wordParser.gst_parse_cstring wordParser.gst_parser_init [49]).1
        ≠ GST_PARSER_FULL) ∧
    fgets 2048 [] = none ∧
    (wordParser.status wordParser.gst_parser_init = GST_PARSER_ROOT →
      debug_run wordParser wordVm (0 + 1) wordVm0 [] =
        some { status := 0, vm := wordVm0, log := [] }) :=
  ⟨by decide, by decide,
    (debug_run_end_of_source wordParser wordVm (fgets 2048) 0 wordVm0
      (wordParser.gst_parse_cstring wordParser.gst_parser_init [49]).1 []
      (by decide) (by decide)).2.2⟩

theorem execs_append {V H : Type} (a b : List (Event V H)) :
    execs (a ++ b) = execs a ++ execs b := by
  induction a with
  | nil => rfl
  | cons e a ih => cases e <;> simp [execs, ih]

theorem execs_map_print {V H : Type} (l : List String) :
    execs (l.map (Event.print : String → Event V H)) = [] := by
  induction l with
  | nil => rfl
  | cons s l ih => simpa [execs] using ih

theorem execs_exec_events {V H C Fn : Type} (vops : VmOps V H C Fn) (vm : Gst V H)
    (ast last : V) :
    execs (exec_events vops vm ast last) =
      [(underscore_at_compile vops vm last, (debug_compile_and_run vops vm ast last).1,
        (debug_compile_and_run vops vm ast last).2.2)] := by
  simp [exec_events, execs, execs_map_print]

theorem underscore_at_compile_eq {V H C Fn : Type} (vops : VmOps V H C Fn) (vm : Gst V H)
    (last : V) : underscore_at_compile vops vm last = some last := by
  simp [underscore_at_compile, gst_env_get, gst_env_putc, List.lookup]

/-- C3, as the code has it: the file holds the failing form `!` and then the
complete form `2`; `debug_run` executes only the first one and returns 1. -/
theorem debug_run_stops_after_failure :
    wordParser.status (wordParser.gst_parse_cstring wordParser.gst_parser_init [50, 10]).1
      = GST_PARSER_FULL ∧
    (debug_run wordParser wordVm 50 wordVm0 [33, 10, 50, 10]).map
      (fun o => (o.status, executed o.log)) = some (1, [[33]]) := by
  decide

/-- The ways in which one pass of the loops of `debug_run` can lead to an
outcome: the end of the source, a feed (after a read when the buffer is used
up), a parse error, an incomplete session, a failed form, or an executed form
followed by the rest of the run. -/
theorem debug_run_loop_cases {P V H C Fn S : Type} (pops : ParserOps P V)
    (vops : VmOps V H C Fn) (refill : S → Option (List Byte × S))
    (fuel : Nat) (vm : Gst V H) (p : P) (reader : List Byte) (inp : S) (o : Outcome V H)
    (h : debug_run_loop pops vops refill (fuel + 1) vm p reader inp = some o) :
    ((pops.status p ≠ GST_PARSER_ERROR ∧ pops.status p ≠ GST_PARSER_FULL) ∧
      ((reader = [] ∧ refill inp = none ∧ o = debug_run_eof pops vm p) ∨
       (∃ rd inp1, ((reader = [] ∧ ∃ chunk, refill inp = some (chunk, inp1) ∧ rd = cstr chunk) ∨
            (reader ≠ [] ∧ rd = reader ∧ inp1 = inp)) ∧
          (pops.gst_parse_cstring p rd).2 ≤ rd.length ∧
          debug_run_loop pops vops refill fuel vm (pops.gst_parse_cstring p rd).1
            (rd.drop (pops.gst_parse_cstring p rd).2) inp1 = some o))) ∨
    (¬ (pops.status p ≠ GST_PARSER_ERROR ∧ pops.status p ≠ GST_PARSER_FULL) ∧
      ((∃ msg, pops.error p = some msg ∧
          o = { status := 1, vm := vm, log := [Event.print ("Parse error: " ++ msg ++ "\n")] }) ∨
       (pops.error p = none ∧
          (pops.status p ≠ GST_PARSER_FULL ∧ pops.status p ≠ GST_PARSER_ROOT) ∧
          o = { status := 1, vm := vm, log := [Event.print "Unexpected end of source\n"] }) ∨
       (pops.error p = none ∧
          ¬ (pops.status p ≠ GST_PARSER_FULL ∧ pops.status p ≠ GST_PARSER_ROOT) ∧
          (debug_compile_and_run vops vm (pops.gst_parse_consume p) vm.ret).2.2 ≠ 0 ∧
          o = { status := 1,
                vm := (debug_compile_and_run vops vm (pops.gst_parse_consume p) vm.ret).1,
                log := exec_events vops vm (pops.gst_parse_consume p) vm.ret }) ∨
       (pops.error p = none ∧
          ¬ (pops.status p ≠ GST_PARSER_FULL ∧ pops.status p ≠ GST_PARSER_ROOT) ∧
          (debug_compile_and_run vops vm (pops.gst_parse_consume p) vm.ret).2.2 = 0 ∧
          ∃ o1, debug_run_loop pops vops refill fuel
              (debug_compile_and_run vops vm (pops.gst_parse_consume p) vm.ret).1
              pops.gst_parser_init reader inp = some o1 ∧
            o = Outcome.after (exec_events vops vm (pops.gst_parse_consume p) vm.ret) o1))) := by
  rw [debug_run_loop] at h
  dsimp only at h
  by_cases hs : pops.status p ≠ GST_PARSER_ERROR ∧ pops.status p ≠ GST_PARSER_FULL
  · rw [if_pos hs] at h
    refine Or.inl ⟨hs, ?_⟩
    by_cases hr : reader = []
    · rw [if_pos hr] at h
      cases hf : refill inp with
      | none =>
        rw [hf] at h
        simp only [Option.some.injEq] at h
        exact Or.inl ⟨hr, rfl, h.symm⟩
      | some ci =>
        obtain ⟨chunk, inp1⟩ := ci
        rw [hf] at h
        dsimp only at h
        by_cases hn : (pops.gst_parse_cstring p (cstr chunk)).2 ≤ (cstr chunk).length
        · rw [if_pos hn] at h
          exact Or.inr ⟨cstr chunk, inp1, Or.inl ⟨hr, chunk, rfl, rfl⟩, hn, h⟩
        · rw [if_neg hn] at h
          simp at h
    · rw [if_neg hr] at h
      by_cases hn : (pops.gst_parse_cstring p reader).2 ≤ reader.length
      · rw [if_pos hn] at h
        exact Or.inr ⟨reader, inp, Or.inr ⟨hr, rfl, rfl⟩, hn, h⟩
      · rw [if_neg hn] at h
        simp at h
  · rw [if_neg hs] at h
    refine Or.inr ⟨hs, ?_⟩
    cases he : pops.error p with
    | some msg =>
      rw [he] at h
      simp only [Option.some.injEq] at h
      exact Or.inl ⟨msg, rfl, h.symm⟩
    | none =>
      rw [he] at h
      dsimp only at h
      by_cases hc : pops.status p ≠ GST_PARSER_FULL ∧ pops.status p ≠ GST_PARSER_ROOT
      · rw [if_pos hc] at h
        simp only [Option.some.injEq] at h
        exact Or.inr (Or.inl ⟨rfl, hc, h.symm⟩)
      · rw [if_neg hc] at h
        by_cases hrc : (debug_compile_and_run vops vm (pops.gst_parse_consume p) vm.ret).2.2 ≠ 0
        · rw [if_pos hrc] at h
          simp only [Option.some.injEq] at h
          exact Or.inr (Or.inr (Or.inl ⟨rfl, hc, hrc, h.symm⟩))
        · rw [if_neg hrc] at h
          rw [Option.map_eq_some'] at h
          obtain ⟨o1, ho1, ho⟩ := h
          exact Or.inr (Or.inr (Or.inr ⟨rfl, hc, not_not.mp hrc, o1, ho1, ho.symm⟩))

theorem execs_eof {P V H : Type} (pops : ParserOps P V) (vm : Gst V H) (p : P) :
    execs (debug_run_eof pops vm p).log = [] := by
  unfold debug_run_eof
  dsimp only
  split_ifs <;> rfl

/-- C3 amended: in every finished call of the loops of `debug_run`, a form
whose `debug_compile_and_run` returns a non-zero status is the last form that
is executed, and the call returns 1. -/
theorem debug_run_failure_is_final {P V H C Fn S : Type} (pops : ParserOps P V)
    (vops : VmOps V H C Fn) (refill : S → Option (List Byte × S)) :
    ∀ (fuel : Nat) (vm : Gst V H) (p : P) (reader : List Byte) (inp : S) (o : Outcome V H),
      debug_run_loop pops vops refill fuel vm p reader inp = some o →
      ∀ pre e post, execs o.log = pre ++ e :: post → e.2.2 ≠ 0 →
        post = [] ∧ o.status = 1 := by
  intro fuel
  induction fuel with
  | zero => intro vm p reader inp o h; simp [debug_run_loop] at h
  | succ fuel ih =>
    intro vm p reader inp o h pre e post hlog hrc
    rcases debug_run_loop_cases pops vops refill fuel vm p reader inp o h with
      ⟨-, ⟨-, -, rfl⟩ | ⟨rd, inp1, -, -, hrec⟩⟩ |
      ⟨-, ⟨msg, -, rfl⟩ | ⟨-, -, rfl⟩ | ⟨-, -, hfail, rfl⟩ | ⟨-, -, hok, o1, ho1, rfl⟩⟩
    · rw [execs_eof] at hlog
      simp at hlog
    · exact ih _ _ _ _ _ hrec pre e post hlog hrc
    · simp [execs] at hlog
    · simp [execs] at hlog
    · simp only [execs_exec_events] at hlog
      cases pre with
      | nil =>
        simp only [List.nil_append, List.cons.injEq] at hlog
        exact ⟨hlog.2.symm, rfl⟩
      | cons a pre => simp at hlog
    · simp only [Outcome.after, execs_append, execs_exec_events, List.singleton_append] at hlog
      cases pre with
      | nil =>
        simp only [List.nil_append, List.cons.injEq] at hlog
        rw [← hlog.1] at hrc
        exact absurd hok hrc
      | cons a pre =>
        simp only [List.cons_append, List.cons.injEq] at hlog
        exact ih _ _ _ _ _ ho1 pre e post hlog.2 hrc

/-- Witness for C3 amended: the file with the failing form `!` and then `2`. -/
theorem debug_run_failure_is_final_witness :
    debug_run_loop wordParser wordVm (fgets 2048) 50 wordVm0 wordParser.gst_parser_init []
        [33, 10, 50, 10] = some failedRun ∧
    ∀ pre e post, execs failedRun.log = pre ++ e :: post → e.2.2 ≠ 0 →
      post = [] ∧ failedRun.status = 1 :=
  ⟨by decide,
    debug_run_failure_is_final wordParser wordVm (fgets 2048) 50 wordVm0 wordParser.gst_parser_init []
      [33, 10, 50, 10] failedRun (by decide)⟩

/-! ## The REPL driver -/

/-- The ways in which one pass of the loops of `debug_repl` can lead to an
outcome: the code after the inner loop followed by the rest of the run, a feed
from the current line, or a call of `gst_getline` that ends the REPL or
delivers the next line. -/
theorem debug_repl_loop_cases {P V H C Fn : Type} (pops : ParserOps P V)
    (vops : VmOps V H C Fn) (junk : Byte) (alloc : Nat → Bool) (flags : Nat)
    (fuel : Nat) (vm : Gst V H) (p : P) (reader : Option (List Byte)) (stdin : List Byte)
    (o : ReplOutcome V H)
    (h : debug_repl_loop pops vops junk alloc flags (fuel + 1) vm p reader stdin = some o) :
    (∃ q o1, (q = p ∨ q = (pops.gst_parse_cstring p [NL]).1) ∧
        debug_repl_loop pops vops junk alloc flags fuel
          (debug_repl_tail pops vops flags vm q reader).1 pops.gst_parser_init
          (debug_repl_tail pops vops flags vm q reader).2.1 stdin = some o1 ∧
        o = ReplOutcome.after (debug_repl_tail pops vops flags vm q reader).2.2 o1) ∨
    (∃ q rd, debug_repl_loop pops vops junk alloc flags fuel vm q rd stdin = some o) ∨
    (∃ res, (gst_getline junk alloc stdin).1 = res ∧
        (res = .null ∨ ∃ buf, res = .line buf ∧ cstr buf = []) ∧
        o = { status := 0, vm := vm,
              log := [.ev (.print (repl_prompt flags)), .getline res] }) ∨
    (∃ buf q rd stdin1 o1, (gst_getline junk alloc stdin).1 = .line buf ∧ cstr buf ≠ [] ∧
        debug_repl_loop pops vops junk alloc flags fuel vm q rd stdin1 = some o1 ∧
        o = ReplOutcome.after [.ev (.print (repl_prompt flags)), .getline (.line buf)] o1) := by
  rw [debug_repl_loop] at h
  dsimp only at h
  by_cases hs : pops.status p ≠ GST_PARSER_ERROR ∧ pops.status p ≠ GST_PARSER_FULL
  · rw [if_pos hs] at h
    by_cases hb : pops.status (pops.gst_parse_cstring p [NL]).1 = GST_PARSER_ERROR ∨
        pops.status (pops.gst_parse_cstring p [NL]).1 = GST_PARSER_FULL
    · rw [if_pos hb, Option.map_eq_some'] at h
      obtain ⟨o1, ho1, ho⟩ := h
      exact Or.inl ⟨_, o1, Or.inr rfl, ho1, ho.symm⟩
    · rw [if_neg hb] at h
      by_cases hrd : reader = none ∨ reader = some []
      · rw [if_pos hrd] at h
        cases hres : (gst_getline junk alloc stdin).1 with
        | null =>
          rw [hres] at h
          simp only [Option.some.injEq] at h
          exact Or.inr (Or.inr (Or.inl ⟨_, rfl, Or.inl rfl, h.symm⟩))
        | fault =>
          rw [hres] at h
          simp at h
        | line buf =>
          rw [hres] at h
          dsimp only at h
          by_cases hc : cstr buf = []
          · rw [if_pos hc] at h
            simp only [Option.some.injEq] at h
            exact Or.inr (Or.inr (Or.inl ⟨_, rfl, Or.inr ⟨buf, rfl, hc⟩, h.symm⟩))
          · rw [if_neg hc] at h
            split_ifs at h
            rw [Option.map_eq_some'] at h
            obtain ⟨o1, ho1, ho⟩ := h
            exact Or.inr (Or.inr (Or.inr ⟨buf, _, _, _, o1, rfl, hc, ho1, ho.symm⟩))
      · rw [if_neg hrd] at h
        split_ifs at h
        exact Or.inr (Or.inl ⟨_, _, h⟩)
  · rw [if_neg hs, Option.map_eq_some'] at h
    obtain ⟨o1, ho1, ho⟩ := h
    exact Or.inl ⟨_, o1, Or.inl rfl, ho1, ho.symm⟩

/-- A finished call of the loops of `debug_repl` has status 0 and ends with
the prompt and a call of `gst_getline` that signalled the end of the input. -/
theorem debug_repl_loop_exit {P V H C Fn : Type} (pops : ParserOps P V)
    (vops : VmOps V H C Fn) (junk : Byte) (alloc : Nat → Bool) (flags : Nat) :
    ∀ (fuel : Nat) (vm : Gst V H) (p : P) (reader : Option (List Byte)) (stdin : List Byte)
        (o : ReplOutcome V H),
      debug_repl_loop pops vops junk alloc flags fuel vm p reader stdin = some o →
      o.status = 0 ∧
      ∃ pre res, o.log = pre ++ [.ev (.print (repl_prompt flags)), .getline res] ∧
        (res = .null ∨ ∃ buf, res = .line buf ∧ cstr buf = []) := by
  intro fuel
  induction fuel with
  | zero => intro vm p reader stdin o h; simp [debug_repl_loop] at h
  | succ fuel ih =>
    intro vm p reader stdin o h
    rcases debug_repl_loop_cases pops vops junk alloc flags fuel vm p reader stdin o h with
      ⟨q, o1, -, ho1, rfl⟩ | ⟨q, rd, hrec⟩ | ⟨res, -, hres, rfl⟩ |
      ⟨buf, q, rd, stdin1, o1, -, -, ho1, rfl⟩
    · obtain ⟨hst, pre, res, hlog, hres⟩ := ih _ _ _ _ _ ho1
      refine ⟨hst, (debug_repl_tail pops vops flags vm q reader).2.2 ++ pre, res, ?_, hres⟩
      simp [ReplOutcome.after, hlog]
    · exact ih _ _ _ _ _ hrec
    · exact ⟨rfl, [], res, rfl, hres⟩
    · obtain ⟨hst, pre, res, hlog, hres⟩ := ih _ _ _ _ _ ho1
      refine ⟨hst,
        [.ev (.print (repl_prompt flags)), .getline (.line buf)] ++ pre, res, ?_, hres⟩
      simp [ReplOutcome.after, hlog]

/-- C5: a finished call of the loops of `debug_repl` has status 0 and its last
two events are the prompt and a call of `gst_getline` that gave no buffer or a
line of zero bytes; when the inner loop is over (the session is `ERROR` or
`FULL`), whatever the code after it reports (parse error, compile error, crash,
error value), the run goes on with a new session; after a parse error `reader`
is null, so that the next feed is a new line. -/
theorem debug_repl_returns_only_at_end_of_input {P V H C Fn : Type} (pops : ParserOps P V)
    (vops : VmOps V H C Fn) (junk : Byte) (alloc : Nat → Bool) (flags : Nat) :
    (∀ (fuel : Nat) (vm : Gst V H) (p : P) (reader : Option (List Byte)) (stdin : List Byte)
        (o : ReplOutcome V H),
      debug_repl_loop pops vops junk alloc flags fuel vm p reader stdin = some o →
      o.status = 0 ∧
      ∃ pre res, o.log = pre ++ [.ev (.print (repl_prompt flags)), .getline res] ∧
        (res = .null ∨ ∃ buf, res = .line buf ∧ cstr buf = [])) ∧
    (∀ (fuel : Nat) (vm : Gst V H) (p : P) (reader : Option (List Byte)) (stdin : List Byte),
      ¬ (pops.status p ≠ GST_PARSER_ERROR ∧ pops.status p ≠ GST_PARSER_FULL) →
      debug_repl_loop pops vops junk alloc flags (fuel + 1) vm p reader stdin =
        (debug_repl_loop pops vops junk alloc flags fuel
          (debug_repl_tail pops vops flags vm p reader).1 pops.gst_parser_init
          (debug_repl_tail pops vops flags vm p reader).2.1 stdin).map
          (ReplOutcome.after (debug_repl_tail pops vops flags vm p reader).2.2)) ∧
    (∀ (vm : Gst V H) (p : P) (reader : Option (List Byte)) (msg : String),
      pops.error p = some msg →
      debug_repl_tail pops vops flags vm p reader =
        (vm, none, [.ev (.print ("Parse error: " ++ msg ++ "\n"))])) := by
  refine ⟨debug_repl_loop_exit pops vops junk alloc flags, ?_, ?_⟩
  · intro fuel vm p reader stdin hs
    rw [debug_repl_loop]
    dsimp only
    rw [if_neg hs]
  · intro vm p reader msg he
    simp [debug_repl_tail, he]

/-- Witness for C5: the example REPL on the input `)` newline. -/
theorem debug_repl_returns_only_at_end_of_input_witness :
    debug_repl_loop wordParser wordVm 7 (fun _ => true) 16 50 wordVm0 wordParser.gst_parser_init
        none [41, 10] = some replRun ∧
    replRun.status = 0 ∧
    ∃ pre res, replRun.log = pre ++ [.ev (.print (repl_prompt 16)), .getline res] ∧
      (res = .null ∨ ∃ buf, res = .line buf ∧ cstr buf = []) :=
  ⟨by decide,
    (debug_repl_returns_only_at_end_of_input wordParser wordVm 7 (fun _ => true) 16).1
      50 wordVm0 wordParser.gst_parser_init none [41, 10] replRun (by decide)⟩

/-! ## Binding propagation -/

theorem chain_transfer {V H : Type} (u u1 : Option V) (vm : Gst V H) (rc : Nat)
    (l : List (Option V × Gst V H × Nat)) (h : List.Chain Propagates (u, vm, 0) l) :
    List.Chain Propagates (u1, vm, rc) l := by
  cases l with
  | nil => exact List.Chain.nil
  | cons x rest =>
    rw [List.chain_cons] at h ⊢
    exact ⟨fun _ => h.1 rfl, h.2⟩

theorem chain_exec {V H : Type} (u0 : Option V) (vm vm1 : Gst V H) (rc : Nat)
    (l : List (Option V × Gst V H × Nat)) (h : ∀ u, List.Chain Propagates (u, vm1, 0) l) :
    List.Chain Propagates (u0, vm, 0) ((some vm.ret, vm1, rc) :: l) := by
  rw [List.chain_cons]
  exact ⟨fun _ => rfl, chain_transfer none _ vm1 rc l (h none)⟩

/-- In the loops of `debug_run` every form is compiled with `_` bound to the
`vm->ret` of the machine it starts from. -/
theorem debug_run_loop_chain {P V H C Fn S : Type} (pops : ParserOps P V)
    (vops : VmOps V H C Fn) (refill : S → Option (List Byte × S)) :
    ∀ (fuel : Nat) (vm : Gst V H) (p : P) (reader : List Byte) (inp : S) (o : Outcome V H),
      debug_run_loop pops vops refill fuel vm p reader inp = some o →
      ∀ u0, List.Chain Propagates (u0, vm, 0) (execs o.log) := by
  intro fuel
  induction fuel with
  | zero => intro vm p reader inp o h; simp [debug_run_loop] at h
  | succ fuel ih =>
    intro vm p reader inp o h u0
    rcases debug_run_loop_cases pops vops refill fuel vm p reader inp o h with
      ⟨-, ⟨-, -, rfl⟩ | ⟨rd, inp1, -, -, hrec⟩⟩ |
      ⟨-, ⟨msg, -, rfl⟩ | ⟨-, -, rfl⟩ | ⟨-, -, hfail, rfl⟩ | ⟨-, -, hok, o1, ho1, rfl⟩⟩
    · rw [execs_eof]; exact List.Chain.nil
    · exact ih _ _ _ _ _ hrec u0
    · exact List.Chain.nil
    · exact List.Chain.nil
    · simp only [execs_exec_events, underscore_at_compile_eq]
      exact chain_exec u0 vm _ _ [] (fun _ => List.Chain.nil)
    · simp only [Outcome.after, execs_append, execs_exec_events, underscore_at_compile_eq,
        List.singleton_append]
      exact chain_exec u0 vm _ _ _ (fun u => ih _ _ _ _ _ ho1 u)

theorem repl_events_append {V H : Type} (a b : List (ReplEvent V H)) :
    repl_events (a ++ b) = repl_events a ++ repl_events b := by
  induction a with
  | nil => rfl
  | cons e a ih => cases e <;> simp [repl_events, ih]

theorem repl_events_map_ev {V H : Type} (l : List (Event V H)) :
    repl_events (l.map ReplEvent.ev) = l := by
  induction l with
  | nil => rfl
  | cons e l ih => simp [repl_events, ih]

theorem no_print_on_success {V H C Fn : Type} (vops : VmOps V H C Fn) (vm : Gst V H)
    (ast last : V) (h : (debug_compile_and_run vops vm ast last).2.2 = 0) :
    (debug_compile_and_run vops vm ast last).2.1 = [] := by
  unfold debug_compile_and_run at h ⊢
  dsimp only at h ⊢
  split
  · rename_i e he
    rw [he] at h
    simp at h
  · rename_i he
    rw [he] at h
    dsimp only at h
    split_ifs at h ⊢ with hr
    · split at h <;> simp at h
    · rfl

theorem shown_map_print {V H : Type} (render : Gst V H → String) (l : List String)
    (rest : List (ReplEvent V H)) (h : ShownAfterExec render rest) :
    ShownAfterExec render ((l.map (Event.print : String → Event V H)).map ReplEvent.ev ++ rest) := by
  induction l with
  | nil => exact h
  | cons s l ih => simpa [ShownAfterExec] using ih

/-- What the code after the inner loop of `debug_repl` adds to the log: at
most one `exec` event, compiled with `_` bound to the current `vm->ret`, and
the result shown directly after a successful one. -/
theorem debug_repl_tail_spec {P V H C Fn : Type} (pops : ParserOps P V)
    (vops : VmOps V H C Fn) (flags : Nat) (vm : Gst V H) (p : P)
    (reader : Option (List Byte)) :
    (∀ rest, ShownAfterExec (fun m => repl_show flags (vops.gst_description m m.ret)) rest →
      ShownAfterExec (fun m => repl_show flags (vops.gst_description m m.ret))
        ((debug_repl_tail pops vops flags vm p reader).2.2 ++ rest)) ∧
    (∀ u0 l, (∀ u, List.Chain Propagates
        (u, (debug_repl_tail pops vops flags vm p reader).1, 0) l) →
      List.Chain Propagates (u0, vm, 0)
        (execs (repl_events (debug_repl_tail pops vops flags vm p reader).2.2) ++ l)) := by
  unfold debug_repl_tail
  cases he : pops.error p with
  | some msg =>
    dsimp only
    exact ⟨fun rest h => by simpa [ShownAfterExec] using h,
      fun u0 l h => by simpa [repl_events, execs] using h u0⟩
  | none =>
    dsimp only
    by_cases hc : pops.status p ≠ GST_PARSER_FULL ∧ pops.status p ≠ GST_PARSER_ROOT
    · rw [if_pos hc]
      exact ⟨fun rest h => by simpa [ShownAfterExec] using h,
        fun u0 l h => by simpa [repl_events, execs] using h u0⟩
    · rw [if_neg hc]
      by_cases hrc : (debug_compile_and_run vops vm (pops.gst_parse_consume p) vm.ret).2.2 = 0
      · rw [if_pos hrc]
        constructor
        · intro rest h
          simp only [exec_events, no_print_on_success vops vm _ _ hrc, List.map_nil,
            List.map_cons, List.cons_append, List.nil_append, ShownAfterExec]
          exact ⟨fun _ => ⟨rest, rfl⟩, h⟩
        · intro u0 l h
          simp only [exec_events, no_print_on_success vops vm _ _ hrc, List.map_nil,
            List.map_cons, List.cons_append, List.nil_append, repl_events, execs,
            underscore_at_compile_eq]
          exact chain_exec u0 vm _ _ l h
      · rw [if_neg hrc]
        constructor
        · intro rest h
          simp only [exec_events, List.map_cons, List.cons_append, ShownAfterExec]
          exact ⟨fun h0 => absurd h0 hrc, shown_map_print _ _ _ h⟩
        · intro u0 l h
          simp only [repl_events_map_ev, execs_exec_events, underscore_at_compile_eq,
            List.singleton_append]
          exact chain_exec u0 vm _ _ l h

theorem shown_tail {V H : Type} (render : Gst V H → String) (e : ReplEvent V H)
    (l : List (ReplEvent V H)) (h : ShownAfterExec render (e :: l)) :
    ShownAfterExec render l := by
  cases e with
  | ev e1 =>
    cases e1 with
    | print s => exact h
    | exec ast u vm1 rc => exact h.2
  | getline r => exact h

theorem shown_decomp {V H : Type} (render : Gst V H → String) (pre : List (ReplEvent V H)) :
    ∀ l, ShownAfterExec render l → ∀ ast u vm1 post,
      l = pre ++ .ev (.exec ast u vm1 0) :: post →
      ∃ post1, post = .ev (.print (render vm1)) :: post1 := by
  induction pre with
  | nil =>
    intro l h ast u vm1 post hl
    subst hl
    exact h.1 rfl
  | cons e pre ih =>
    intro l h ast u vm1 post hl
    subst hl
    exact ih _ (shown_tail render e _ h) ast u vm1 post rfl

theorem chain_prime_of_chain {V H : Type} (vm : Gst V H) (l : List (Option V × Gst V H × Nat))
    (h : ∀ u, List.Chain Propagates (u, vm, 0) l) : List.Chain' Propagates l := by
  cases l with
  | nil => exact List.chain'_nil
  | cons x rest => exact (List.chain_cons.mp (h none)).2

/-- In the loops of `debug_repl` every successful form is shown directly after
its call, and every form is compiled with `_` bound to the `vm->ret` of the
machine it starts from. -/
theorem debug_repl_loop_chain {P V H C Fn : Type} (pops : ParserOps P V)
    (vops : VmOps V H C Fn) (junk : Byte) (alloc : Nat → Bool) (flags : Nat) :
    ∀ (fuel : Nat) (vm : Gst V H) (p : P) (reader : Option (List Byte)) (stdin : List Byte)
      (o : ReplOutcome V H),
      debug_repl_loop pops vops junk alloc flags fuel vm p reader stdin = some o →
      ShownAfterExec (fun m => repl_show flags (vops.gst_description m m.ret)) o.log ∧
      ∀ u0, List.Chain Propagates (u0, vm, 0) (execs (repl_events o.log)) := by
  intro fuel
  induction fuel with
  | zero => intro vm p reader stdin o h; simp [debug_repl_loop] at h
  | succ fuel ih =>
    intro vm p reader stdin o h
    rcases debug_repl_loop_cases pops vops junk alloc flags fuel vm p reader stdin o h with
      ⟨q, o1, -, ho1, rfl⟩ | ⟨q, rd, hrec⟩ | ⟨res, -, hres, rfl⟩ |
      ⟨buf, q, rd, stdin1, o1, -, -, ho1, rfl⟩
    · obtain ⟨hshow, hchain⟩ := ih _ _ _ _ _ ho1
      obtain ⟨t1, t2⟩ := debug_repl_tail_spec pops vops flags vm q reader
      refine ⟨t1 _ hshow, fun u0 => ?_⟩
      simp only [ReplOutcome.after, repl_events_append, execs_append]
      exact t2 u0 _ hchain
    · exact ih _ _ _ _ _ hrec
    · exact ⟨by simp [ShownAfterExec], fun u0 => by simp [repl_events, execs]⟩
    · obtain ⟨hshow, hchain⟩ := ih _ _ _ _ _ ho1
      refine ⟨by simpa [ReplOutcome.after, ShownAfterExec] using hshow, fun u0 => ?_⟩
      simpa [ReplOutcome.after, repl_events, execs] using hchain u0

/-- C9: in every finished call of the loops of `debug_run` and of
`debug_repl`, for each two consecutive calls of `debug_compile_and_run` of
which the first returned 0, the value bound to `_` in the environment handed to
the compiler by the second is the `vm->ret` that the first left; in the REPL a
successful call is directly followed by the print of the description of that
same `vm->ret`. -/
theorem binding_propagation {P V H C Fn : Type} (pops : ParserOps P V)
    (vops : VmOps V H C Fn) :
    (∀ (S : Type) (refill : S → Option (List Byte × S)) (fuel : Nat) (vm : Gst V H) (p : P)
        (reader : List Byte) (inp : S) (o : Outcome V H),
      debug_run_loop pops vops refill fuel vm p reader inp = some o →
      List.Chain' Propagates (execs o.log)) ∧
    (∀ (junk : Byte) (alloc : Nat → Bool) (flags fuel : Nat) (vm : Gst V H) (p : P)
        (reader : Option (List Byte)) (stdin : List Byte) (o : ReplOutcome V H),
      debug_repl_loop pops vops junk alloc flags fuel vm p reader stdin = some o →
      List.Chain' Propagates (execs (repl_events o.log)) ∧
      ∀ pre ast u vm1 post, o.log = pre ++ .ev (.exec ast u vm1 0) :: post →
        ∃ post1, post =
          .ev (.print (repl_show flags (vops.gst_description vm1 vm1.ret))) :: post1) := by
  constructor
  · intro S refill fuel vm p reader inp o h
    exact chain_prime_of_chain vm _ (debug_run_loop_chain pops vops refill fuel vm p reader inp o h)
  · intro junk alloc flags fuel vm p reader stdin o h
    obtain ⟨hshow, hchain⟩ :=
      debug_repl_loop_chain pops vops junk alloc flags fuel vm p reader stdin o h
    exact ⟨chain_prime_of_chain vm _ hchain,
      fun pre ast u vm1 post hl => shown_decomp _ pre _ hshow ast u vm1 post hl⟩

/-- Witness for C9: the example REPL on the line `1 2`. -/
theorem binding_propagation_witness :
    debug_repl_loop wordParser wordVm 7 (fun _ => true) 16 50 wordVm0
        wordParser.gst_parser_init none [49, 32, 50, 10] = some replTwoForms ∧
    List.Chain' Propagates (execs (repl_events replTwoForms.log)) ∧
    ∀ pre ast u vm1 post, replTwoForms.log = pre ++ .ev (.exec ast u vm1 0) :: post →
      ∃ post1, post =
        .ev (.print (repl_show 16 (wordVm.gst_description vm1 vm1.ret))) :: post1 :=
  ⟨by decide,
    (binding_propagation wordParser wordVm).2 7 (fun _ => true) 16 50 wordVm0
      wordParser.gst_parser_init none [49, 32, 50, 10] replTwoForms (by decide)⟩

/-! ## The command line -/

theorem lor_eq_zero (x y : Nat) : x ||| y = 0 ↔ x = 0 ∧ y = 0 := by
  constructor
  · intro h
    have hb : ∀ i, (x.testBit i || y.testBit i) = false := by
      intro i
      rw [← Nat.testBit_or, h, Nat.zero_testBit]
    constructor
    · apply Nat.eq_of_testBit_eq
      intro i
      have := hb i
      rw [Bool.or_eq_false_iff] at this
      simp [this.1]
    · apply Nat.eq_of_testBit_eq
      intro i
      have := hb i
      rw [Bool.or_eq_false_iff] at this
      simp [this.2]
  · rintro ⟨rfl, rfl⟩
    rfl

theorem or_and_ne_zero (f b m : Nat) :
    (f ||| b) &&& m ≠ 0 ↔ f &&& m ≠ 0 ∨ b &&& m ≠ 0 := by
  rw [Nat.and_distrib_right, ne_eq, lor_eq_zero]
  tauto

theorem client_strequal_iff (a : List Char) : ∀ b, client_strequal a b = true ↔ a = b := by
  induction a with
  | nil => intro b; cases b <;> simp [client_strequal]
  | cons x a ih =>
    intro b
    cases b with
    | nil => simp [client_strequal]
    | cons y b =>
      simp only [client_strequal, List.cons.injEq]
      by_cases hxy : x = y
      · simp [hxy, ih b]
      · simp [hxy]

theorem main_short_flags_cons (f : Nat) (c : Char) (rest : List Char) :
    main_short_flags f (c :: rest) = main_short_flags (f ||| short_flag_bit c) rest := by
  simp only [main_short_flags, short_flag_bit]
  split_ifs <;> rfl

theorem main_short_flags_or (g : List Char) :
    ∀ f, main_short_flags f g = f ||| main_short_flags 0 g := by
  induction g with
  | nil => intro f; simp [main_short_flags]
  | cons c rest ih =>
    intro f
    rw [main_short_flags_cons, main_short_flags_cons, ih (f ||| short_flag_bit c),
      ih (0 ||| short_flag_bit c), Nat.zero_or, Nat.or_assoc]

theorem main_arg_or (f : Nat) (a : List Char) : main_arg f a = f ||| main_arg 0 a := by
  unfold main_arg
  split
  · split_ifs <;> simp
  · exact main_short_flags_or _ f
  · simp

theorem foldl_main_arg_bit (m : Nat) (args : List (List Char)) :
    ∀ f, (args.foldl main_arg f) &&& m ≠ 0 ↔
      f &&& m ≠ 0 ∨ ∃ a ∈ args, main_arg 0 a &&& m ≠ 0 := by
  induction args with
  | nil => intro f; simp
  | cons a args ih =>
    intro f
    rw [List.foldl_cons, ih, main_arg_or, or_and_ne_zero]
    simp only [List.mem_cons, exists_eq_or_imp]
    tauto

theorem short_flags_bit (m : Nat) (g : List Char) :
    main_short_flags 0 g &&& m ≠ 0 ↔ ∃ c ∈ g, short_flag_bit c &&& m ≠ 0 := by
  induction g with
  | nil => simp [main_short_flags]
  | cons c rest ih =>
    rw [main_short_flags_cons, main_short_flags_or, or_and_ne_zero, ih, Nat.zero_or]
    simp only [List.mem_cons, exists_eq_or_imp]

theorem short_flag_bit_help (c : Char) : short_flag_bit c &&& GST_CLIENT_HELP ≠ 0 ↔ c = 'h' := by
  unfold short_flag_bit
  split_ifs with h1 h2 h3 h4 h5 <;> simp_all [GST_CLIENT_HELP, GST_CLIENT_VERSION,
    GST_CLIENT_VERBOSE, GST_CLIENT_REPL, GST_CLIENT_NOCOLOR, GST_CLIENT_UNKNOWN]

theorem short_flag_bit_version (c : Char) :
    short_flag_bit c &&& GST_CLIENT_VERSION ≠ 0 ↔ c = 'v' := by
  unfold short_flag_bit
  split_ifs with h1 h2 h3 h4 h5 <;> simp_all [GST_CLIENT_HELP, GST_CLIENT_VERSION,
    GST_CLIENT_VERBOSE, GST_CLIENT_REPL, GST_CLIENT_NOCOLOR, GST_CLIENT_UNKNOWN] <;> decide

theorem short_flag_bit_repl (c : Char) :
    short_flag_bit c &&& GST_CLIENT_REPL ≠ 0 ↔ c = 'r' := by
  unfold short_flag_bit
  split_ifs with h1 h2 h3 h4 h5 <;> simp_all [GST_CLIENT_HELP, GST_CLIENT_VERSION,
    GST_CLIENT_VERBOSE, GST_CLIENT_REPL, GST_CLIENT_NOCOLOR, GST_CLIENT_UNKNOWN] <;> decide

theorem short_flag_bit_unknown (c : Char) :
    short_flag_bit c &&& GST_CLIENT_UNKNOWN ≠ 0 ↔
      (c ≠ 'h' ∧ c ≠ 'v' ∧ c ≠ 'V' ∧ c ≠ 'r' ∧ c ≠ 'c') := by
  unfold short_flag_bit
  split_ifs with h1 h2 h3 h4 h5 <;> simp_all [GST_CLIENT_HELP, GST_CLIENT_VERSION,
    GST_CLIENT_VERBOSE, GST_CLIENT_REPL, GST_CLIENT_NOCOLOR, GST_CLIENT_UNKNOWN] <;> decide

/-- The three shapes of an argument and the bits that the first loop of `main`
sets for each. -/
theorem main_arg_cases (a : List Char) :
    (∃ opt, a = '-' :: '-' :: opt ∧ main_arg 0 a = long_option_bit opt) ∨
    (∃ g, shortGroup a g ∧ main_arg 0 a = main_short_flags 0 g) ∨
    (a.head? ≠ some '-' ∧ main_arg 0 a = 0) := by
  unfold main_arg
  split
  · rename_i opt
    refine Or.inl ⟨opt, rfl, ?_⟩
    unfold long_option_bit
    split_ifs <;> simp
  · rename_i g hne
    refine Or.inr (Or.inl ⟨g, ⟨rfl, ?_⟩, rfl⟩)
    intro hh
    cases g with
    | nil => simp at hh
    | cons c g =>
      simp only [List.head?_cons, Option.some.injEq] at hh
      exact hne g (by rw [hh])
  · rename_i h1 h2
    refine Or.inr (Or.inr ⟨?_, rfl⟩)
    intro hh
    cases a with
    | nil => simp at hh
    | cons c a =>
      simp only [List.head?_cons, Option.some.injEq] at hh
      exact h2 a (by rw [hh])

theorem shortGroup_not_long (opt g : List Char) : ¬ shortGroup ('-' :: '-' :: opt) g := by
  rintro ⟨h1, h2⟩
  simp only [List.cons.injEq, true_and] at h1
  rw [← h1] at h2
  simp at h2

theorem shortGroup_unique (a g g1 : List Char) (h : shortGroup a g) (h1 : shortGroup a g1) :
    g1 = g := by
  have := h.1.symm.trans h1.1
  simp only [List.cons.injEq, true_and] at this
  exact this.symm

theorem not_flag_of_head (a : List Char) (h : a.head? ≠ some '-') :
    (∀ g, ¬ shortGroup a g) ∧ (∀ opt, a ≠ '-' :: '-' :: opt) := by
  constructor
  · rintro g ⟨h1, -⟩
    rw [h1] at h
    simp at h
  · intro opt h1
    rw [h1] at h
    simp at h

theorem main_arg_bit_iff (m : Nat) (a : List Char) (L : List Char → Prop) (S : Char → Prop)
    (hL : ∀ opt, long_option_bit opt &&& m ≠ 0 ↔ L opt)
    (hS : ∀ c, short_flag_bit c &&& m ≠ 0 ↔ S c) :
    main_arg 0 a &&& m ≠ 0 ↔
      (∃ opt, a = '-' :: '-' :: opt ∧ L opt) ∨ (∃ g, shortGroup a g ∧ ∃ c ∈ g, S c) := by
  rcases main_arg_cases a with ⟨opt, rfl, h⟩ | ⟨g, hg, h⟩ | ⟨hh, h⟩
  · rw [h, hL]
    constructor
    · intro hl
      exact Or.inl ⟨opt, rfl, hl⟩
    · rintro (⟨opt1, h1, hl⟩ | ⟨g, hg, -⟩)
      · simp only [List.cons.injEq, true_and] at h1
        rw [h1]
        exact hl
      · exact absurd hg (shortGroup_not_long opt g)
  · rw [h, short_flags_bit]
    simp only [hS]
    constructor
    · intro hs
      exact Or.inr ⟨g, hg, hs⟩
    · rintro (⟨opt1, h1, -⟩ | ⟨g1, hg1, hs⟩)
      · rw [h1] at hg
        exact absurd hg (shortGroup_not_long opt1 g)
      · rw [← shortGroup_unique a g g1 hg hg1]
        exact hs
  · rw [h]
    obtain ⟨n1, n2⟩ := not_flag_of_head a hh
    constructor
    · intro h0
      simp at h0
    · rintro (⟨opt1, h1, -⟩ | ⟨g1, hg1, -⟩)
      · exact absurd h1 (n2 opt1)
      · exact absurd hg1 (n1 g1)

theorem long_option_bit_help (opt : List Char) :
    long_option_bit opt &&& GST_CLIENT_HELP ≠ 0 ↔ opt = "help".toList := by
  unfold long_option_bit
  simp only [client_strequal_iff]
  split_ifs with h1 h2 h3 h4 h5 <;> simp_all [GST_CLIENT_HELP, GST_CLIENT_VERSION,
    GST_CLIENT_VERBOSE, GST_CLIENT_REPL, GST_CLIENT_NOCOLOR, GST_CLIENT_UNKNOWN]

theorem long_option_bit_version (opt : List Char) :
    long_option_bit opt &&& GST_CLIENT_VERSION ≠ 0 ↔ opt = "version".toList := by
  unfold long_option_bit
  simp only [client_strequal_iff]
  split_ifs with h1 h2 h3 h4 h5 <;> simp_all [GST_CLIENT_HELP, GST_CLIENT_VERSION,
    GST_CLIENT_VERBOSE, GST_CLIENT_REPL, GST_CLIENT_NOCOLOR, GST_CLIENT_UNKNOWN] <;> decide

theorem long_option_bit_unknown (opt : List Char) :
    long_option_bit opt &&& GST_CLIENT_UNKNOWN ≠ 0 ↔
      (opt ≠ "help".toList ∧ opt ≠ "version".toList ∧ opt ≠ "verbose".toList ∧
        opt ≠ "repl".toList ∧ opt ≠ "nocolor".toList) := by
  unfold long_option_bit
  simp only [client_strequal_iff]
  split_ifs with h1 h2 h3 h4 h5 <;> simp_all [GST_CLIENT_HELP, GST_CLIENT_VERSION,
    GST_CLIENT_VERBOSE, GST_CLIENT_REPL, GST_CLIENT_NOCOLOR, GST_CLIENT_UNKNOWN] <;> decide

theorem main_arg_help (a : List Char) :
    main_arg 0 a &&& GST_CLIENT_HELP ≠ 0 ↔ helpFlag a := by
  rw [main_arg_bit_iff GST_CLIENT_HELP a _ _ long_option_bit_help short_flag_bit_help]
  unfold helpFlag
  constructor
  · rintro (⟨opt, h1, h2⟩ | ⟨g, hg, c, hc, rfl⟩)
    · left; rw [h1, h2]; rfl
    · exact Or.inr ⟨g, hg, hc⟩
  · rintro (h | ⟨g, hg, hc⟩)
    · exact Or.inl ⟨"help".toList, h, rfl⟩
    · exact Or.inr ⟨g, hg, _, hc, rfl⟩

theorem main_arg_version (a : List Char) :
    main_arg 0 a &&& GST_CLIENT_VERSION ≠ 0 ↔ versionFlag a := by
  rw [main_arg_bit_iff GST_CLIENT_VERSION a _ _ long_option_bit_version short_flag_bit_version]
  unfold versionFlag
  constructor
  · rintro (⟨opt, h1, h2⟩ | ⟨g, hg, c, hc, rfl⟩)
    · left; rw [h1, h2]; rfl
    · exact Or.inr ⟨g, hg, hc⟩
  · rintro (h | ⟨g, hg, hc⟩)
    · exact Or.inl ⟨"version".toList, h, rfl⟩
    · exact Or.inr ⟨g, hg, _, hc, rfl⟩

theorem main_arg_unknown (a : List Char) :
    main_arg 0 a &&& GST_CLIENT_UNKNOWN ≠ 0 ↔ unknownFlag a := by
  rw [main_arg_bit_iff GST_CLIENT_UNKNOWN a _ _ long_option_bit_unknown short_flag_bit_unknown]
  rfl

/-- The help, version and unknown bits of the flags word, in terms of the
arguments. -/
theorem main_flags_bits (args : List (List Char)) :
    (main_flags args &&& GST_CLIENT_HELP ≠ 0 ↔ ∃ a ∈ args, helpFlag a) ∧
    (main_flags args &&& GST_CLIENT_VERSION ≠ 0 ↔ ∃ a ∈ args, versionFlag a) ∧
    (main_flags args &&& GST_CLIENT_UNKNOWN ≠ 0 ↔ ∃ a ∈ args, unknownFlag a) := by
  unfold main_flags
  refine ⟨?_, ?_, ?_⟩
  · rw [foldl_main_arg_bit]
    simp [main_arg_help]
  · rw [foldl_main_arg_bit]
    simp [main_arg_version]
  · rw [foldl_main_arg_bit]
    simp [main_arg_unknown]

/-- C6: for every argument list in which some argument after the program name
is a help flag or an unknown flag, `main` returns 0 and its only event is the
print of the usage text: the machine is not set up and neither `debug_run` nor
`debug_repl` is called, whatever the other arguments, the files, the standard
input and the step budget are. -/
theorem main_help_takes_precedence {P V H C Fn : Type} (w : World P V H C Fn)
    (prog : List Char) (args : List (List Char))
    (h : ∃ a ∈ args, helpFlag a ∨ unknownFlag a) :
    main w (prog :: args) = some (0, [MainEvent.usage prog]) := by
  obtain ⟨hh, -, hu⟩ := main_flags_bits args
  have hcond : main_flags args &&& GST_CLIENT_HELP ≠ 0 ∨
      main_flags args &&& GST_CLIENT_UNKNOWN ≠ 0 := by
    obtain ⟨a, ha, hf | hf⟩ := h
    · exact Or.inl (hh.mpr ⟨a, ha, hf⟩)
    · exact Or.inr (hu.mpr ⟨a, ha, hf⟩)
  unfold main
  simp only [List.tail_cons, List.headI_cons]
  rw [if_pos hcond]

/-- Witness for C6: `--repl`, a file and `--help`. -/
theorem main_help_takes_precedence_witness :
    (∃ a ∈ ["--repl".toList, "good".toList, "--help".toList], helpFlag a ∨ unknownFlag a) ∧
    main exampleWorld ["gst".toList, "--repl".toList, "good".toList, "--help".toList] =
      some (0, [MainEvent.usage "gst".toList]) :=
  ⟨⟨"--help".toList, by simp, Or.inl (Or.inl rfl)⟩,
    main_help_takes_precedence exampleWorld "gst".toList
      ["--repl".toList, "good".toList, "--help".toList]
      ⟨"--help".toList, by simp, Or.inl (Or.inl rfl)⟩⟩

theorem driver_statuses_append {V H : Type} (a b : List (MainEvent V H)) :
    driver_statuses (a ++ b) = driver_statuses a ++ driver_statuses b := by
  induction a with
  | nil => rfl
  | cons e a ih => cases e <;> simp [driver_statuses, ih]

theorem getLast_cons_of_some {α : Type} (a x : α) (l : List α) (h : l.getLast? = some x) :
    (a :: l).getLast? = some x := by
  cases l with
  | nil => simp at h
  | cons b l => rw [List.getLast?_cons_cons]; exact h

/-- The second loop of `main`: it calls only `debug_run`, and afterwards
`status` holds what the last call returned (or is unchanged when there was no
call). -/
theorem main_files_spec {P V H C Fn : Type} (w : World P V H C Fn) (args : List (List Char)) :
    ∀ (status : Int) (fileRead : Bool) (vm : Gst V H)
      (r : Int × Bool × Gst V H × List (MainEvent V H)),
      main_files w args status fileRead vm = some r →
      (∀ o, MainEvent.debug_repl o ∉ r.2.2.2) ∧
      ((driver_statuses r.2.2.2 = [] ∧ r.1 = status ∧ r.2.1 = fileRead) ∨
        ((driver_statuses r.2.2.2).getLast? = some r.1 ∧ r.2.1 = true)) := by
  induction args with
  | nil =>
    intro status fileRead vm r h
    simp only [main_files, Option.some.injEq] at h
    subst h
    exact ⟨by simp, Or.inl ⟨rfl, rfl, rfl⟩⟩
  | cons arg args ih =>
    intro status fileRead vm r h
    rw [main_files] at h
    by_cases hd : arg.head? ≠ some '-'
    · rw [if_pos hd] at h
      cases hf : w.fopen arg with
      | none => rw [hf] at h; simp at h
      | some file =>
        rw [hf] at h
        dsimp only at h
        cases hr : debug_run w.pops w.vops w.fuel vm file with
        | none => rw [hr] at h; simp at h
        | some o =>
          rw [hr] at h
          dsimp only at h
          rw [Option.map_eq_some'] at h
          obtain ⟨r1, hr1, rfl⟩ := h
          obtain ⟨hno, hst⟩ := ih _ _ _ r1 hr1
          refine ⟨?_, Or.inr ?_⟩
          · intro o1 hmem
            simp only [List.mem_cons] at hmem
            rcases hmem with hmem | hmem
            · cases hmem
            · exact hno o1 hmem
          · simp only [driver_statuses]
            rcases hst with ⟨h1, h2, h3⟩ | ⟨h1, h3⟩
            · rw [h1, h2]
              exact ⟨rfl, h3⟩
            · exact ⟨getLast_cons_of_some _ _ _ h1, h3⟩
    · rw [if_neg hd] at h
      exact ih _ _ _ r h

theorem debug_repl_status {P V H C Fn : Type} (pops : ParserOps P V)
    (vops : VmOps V H C Fn) (junk : Byte) (alloc : Nat → Bool) (fuel : Nat) (vm : Gst V H)
    (flags : Nat) (stdin : List Byte) (o : ReplOutcome V H)
    (h : debug_repl pops vops junk alloc fuel vm flags stdin = some o) : o.status = 0 :=
  (debug_repl_loop_exit pops vops junk alloc flags fuel vm _ _ _ o h).1

theorem example_args_no_flags :
    ∀ a ∈ ["bad".toList, "good".toList],
      ¬ helpFlag a ∧ ¬ versionFlag a ∧ ¬ unknownFlag a := by
  intro a ha
  have hh : a.head? ≠ some '-' := by
    simp only [List.mem_cons, List.mem_singleton, List.not_mem_nil, or_false] at ha
    rcases ha with rfl | rfl <;> decide
  obtain ⟨n1, n2⟩ := not_flag_of_head a hh
  refine ⟨?_, ?_, ?_⟩
  · rintro (h | ⟨g, hg, -⟩)
    · exact n2 _ h
    · exact n1 g hg
  · rintro (h | ⟨g, hg, -⟩)
    · exact n2 _ h
    · exact n1 g hg
  · rintro (⟨opt, h, -⟩ | ⟨g, hg, -⟩)
    · exact n2 _ h
    · exact n1 g hg

/-- C8, as the code has it: with the arguments `bad good` (no flags) the batch
pass on `bad` returns 1, the one on `good` returns 0, and `main` returns 0. -/
theorem main_forgets_earlier_failure :
    (∀ a ∈ ["bad".toList, "good".toList],
      ¬ helpFlag a ∧ ¬ versionFlag a ∧ ¬ unknownFlag a) ∧
    (main exampleWorld ["gst".toList, "bad".toList, "good".toList]).map
      (fun r => (r.1, driver_statuses r.2)) = some (0, [1, 0]) :=
  ⟨example_args_no_flags, by decide⟩

/-- C8 amended: for every argument list without help, version or unknown
flags, the status that a finished call of `main` returns is the status returned
by the last driver call; it is 0 when the REPL ran, and 0 when every driver
call returned 0. -/
theorem main_status_is_last_driver {P V H C Fn : Type} (w : World P V H C Fn)
    (prog : List Char) (args : List (List Char))
    (hno : ∀ a ∈ args, ¬ helpFlag a ∧ ¬ versionFlag a ∧ ¬ unknownFlag a)
    (status : Int) (log : List (MainEvent V H))
    (h : main w (prog :: args) = some (status, log)) :
    (driver_statuses log).getLast? = some status ∧
    (∀ o, MainEvent.debug_repl o ∈ log → status = 0) ∧
    ((∀ s ∈ driver_statuses log, s = 0) → status = 0) := by
  obtain ⟨hh, hv, hu⟩ := main_flags_bits args
  have h1 : ¬ (main_flags args &&& GST_CLIENT_HELP ≠ 0 ∨
      main_flags args &&& GST_CLIENT_UNKNOWN ≠ 0) := by
    rintro (hc | hc)
    · obtain ⟨a, ha, hf⟩ := hh.mp hc
      exact (hno a ha).1 hf
    · obtain ⟨a, ha, hf⟩ := hu.mp hc
      exact (hno a ha).2.2 hf
  have h2 : ¬ (main_flags args &&& GST_CLIENT_VERSION ≠ 0) := by
    intro hc
    obtain ⟨a, ha, hf⟩ := hv.mp hc
    exact (hno a ha).2.1 hf
  have hlast : (driver_statuses log).getLast? = some status ∧
      (∀ o, MainEvent.debug_repl o ∈ log → status = 0) := by
    unfold main at h
    simp only [List.tail_cons, List.headI_cons] at h
    rw [if_neg h1, if_neg h2] at h
    cases hf : main_files w args (-1) false w.vm0 with
    | none => rw [hf] at h; simp at h
    | some r =>
      obtain ⟨st, fr, vm, evs⟩ := r
      rw [hf] at h
      dsimp only at h
      obtain ⟨hnorepl, hst⟩ := main_files_spec w args _ _ _ _ hf
      dsimp only at hnorepl hst
      by_cases hrepl : ¬ fr = true ∨ main_flags args &&& GST_CLIENT_REPL ≠ 0
      · rw [if_pos hrepl] at h
        cases hr : debug_repl w.pops w.vops w.junk w.alloc w.fuel vm (main_flags args) w.stdin with
        | none => rw [hr] at h; simp at h
        | some o =>
          rw [hr] at h
          simp only [Option.some.injEq, Prod.mk.injEq] at h
          obtain ⟨rfl, rfl⟩ := h
          have h0 := debug_repl_status _ _ _ _ _ _ _ _ o hr
          constructor
          · simp [driver_statuses, driver_statuses_append, List.getLast?_append]
          · intro _ _
            rw [h0]
            rfl
      · rw [if_neg hrepl] at h
        simp only [Option.some.injEq, Prod.mk.injEq] at h
        obtain ⟨rfl, rfl⟩ := h
        have hfr : fr = true := by
          by_contra hc
          exact hrepl (Or.inl hc)
        constructor
        · have hds : driver_statuses (MainEvent.gst_init :: evs ++ [MainEvent.gst_deinit]) =
              driver_statuses evs := by
            have e1 : ∀ l : List (MainEvent V H),
                driver_statuses (MainEvent.gst_init :: l) = driver_statuses l := fun _ => rfl
            have e2 : driver_statuses ([MainEvent.gst_deinit] : List (MainEvent V H)) = [] := rfl
            rw [List.cons_append, e1, driver_statuses_append, e2, List.append_nil]
          rw [hds]
          rcases hst with ⟨-, -, h3⟩ | ⟨h3, -⟩
          · rw [hfr] at h3
            cases h3
          · exact h3
        · intro o hmem
          rw [List.cons_append, List.mem_cons, List.mem_append, List.mem_singleton] at hmem
          rcases hmem with hmem | hmem | hmem
          · cases hmem
          · exact absurd hmem (hnorepl o)
          · cases hmem
  refine ⟨hlast.1, hlast.2, ?_⟩
  intro hall
  exact hall status (List.mem_of_getLast?_eq_some hlast.1)

/-- Witness for C8 amended: the arguments `bad good`. -/
theorem main_status_is_last_driver_witness :
    (∀ a ∈ ["bad".toList, "good".toList],
      ¬ helpFlag a ∧ ¬ versionFlag a ∧ ¬ unknownFlag a) ∧
    main exampleWorld ["gst".toList, "bad".toList, "good".toList] =
      some (0, exampleMainLog) ∧
    (driver_statuses exampleMainLog).getLast? = some 0 ∧
    (∀ o, MainEvent.debug_repl o ∈ exampleMainLog → (0 : Int) = 0) ∧
    ((∀ s ∈ driver_statuses exampleMainLog, s = 0) → (0 : Int) = 0) :=
  ⟨example_args_no_flags, by decide,
    main_status_is_last_driver exampleWorld "gst".toList ["bad".toList, "good".toList]
      example_args_no_flags 0 exampleMainLog (by decide)⟩

/-! ## Chunk invariance of the batch driver -/

theorem accepting_iff {P V : Type} (pops : ParserOps P V) (p : P) :
    (pops.status p = GST_PARSER_PENDING ∨ pops.status p = GST_PARSER_ROOT) ↔
      (pops.status p ≠ GST_PARSER_ERROR ∧ pops.status p ≠ GST_PARSER_FULL) := by
  cases pops.status p <;> simp

theorem cstr_of_nul_free (l : List Byte) (h : NUL ∉ l) : cstr l = l := by
  unfold cstr
  rw [List.takeWhile_eq_self_iff]
  intro b hb
  simp only [bne_iff_ne, ne_eq]
  intro hc
  exact h (hc ▸ hb)

/-- What a byte-wise feed reports: it reads a prefix, and when it stops short
the session no longer takes bytes. -/
theorem gst_parse_bytes_spec {P : Type} (status : P → GstParserStatus)
    (dispatch : P → Byte → P) (s : List Byte) :
    ∀ p, (gst_parse_bytes status dispatch p s).2 ≤ s.length ∧
      ((gst_parse_bytes status dispatch p s).2 < s.length →
        ¬ (status (gst_parse_bytes status dispatch p s).1 = GST_PARSER_PENDING ∨
          status (gst_parse_bytes status dispatch p s).1 = GST_PARSER_ROOT)) := by
  induction s with
  | nil => intro p; simp [gst_parse_bytes]
  | cons c rest ih =>
    intro p
    simp only [gst_parse_bytes]
    by_cases hp : status p = GST_PARSER_PENDING ∨ status p = GST_PARSER_ROOT
    · rw [if_pos hp]
      obtain ⟨h1, h2⟩ := ih (dispatch p c)
      simp only [List.length_cons]
      exact ⟨by omega, fun h => h2 (by omega)⟩
    · rw [if_neg hp]
      exact ⟨by simp, fun _ => hp⟩

theorem debug_run_loop_after {P V H C Fn S : Type} (pops : ParserOps P V)
    (vops : VmOps V H C Fn) (refill : S → Option (List Byte × S)) (fuel : Nat) (vm : Gst V H)
    (p : P) (reader : List Byte) (inp : S) (hs : ¬ Accepting pops p) :
    debug_run_loop pops vops refill (fuel + 1) vm p reader inp =
      debug_run_after pops vops vm p
        (fun vm1 => debug_run_loop pops vops refill fuel vm1 pops.gst_parser_init reader inp) := by
  unfold Accepting at hs
  rw [debug_run_loop]
  dsimp only
  rw [if_neg hs]
  rfl

theorem debug_run_loop_feed {P V H C Fn S : Type} (pops : ParserOps P V)
    (vops : VmOps V H C Fn) (refill : S → Option (List Byte × S)) (fuel : Nat) (vm : Gst V H)
    (p : P) (reader : List Byte) (inp : S) (hs : Accepting pops p) (hr : reader ≠ [])
    (hn : (pops.gst_parse_cstring p reader).2 ≤ reader.length) :
    debug_run_loop pops vops refill (fuel + 1) vm p reader inp =
      debug_run_loop pops vops refill fuel vm (pops.gst_parse_cstring p reader).1
        (reader.drop (pops.gst_parse_cstring p reader).2) inp := by
  unfold Accepting at hs
  rw [debug_run_loop]
  dsimp only
  rw [if_pos hs, if_neg hr, if_pos hn]

theorem debug_run_loop_refill {P V H C Fn : Type} (pops : ParserOps P V)
    (vops : VmOps V H C Fn) (fuel : Nat) (vm : Gst V H)
    (p : P) (c : List Byte) (cs : List (List Byte)) (hs : Accepting pops p)
    (hn : (pops.gst_parse_cstring p (cstr c)).2 ≤ (cstr c).length) :
    debug_run_loop pops vops next_chunk (fuel + 1) vm p [] (c :: cs) =
      debug_run_loop pops vops next_chunk fuel vm (pops.gst_parse_cstring p (cstr c)).1
        ((cstr c).drop (pops.gst_parse_cstring p (cstr c)).2) cs := by
  unfold Accepting at hs
  rw [debug_run_loop]
  dsimp only
  rw [if_pos hs, if_pos rfl]
  simp only [next_chunk]
  rw [if_pos hn]

theorem debug_run_loop_end {P V H C Fn : Type} (pops : ParserOps P V)
    (vops : VmOps V H C Fn) (fuel : Nat) (vm : Gst V H) (p : P) (hs : Accepting pops p) :
    debug_run_loop pops vops next_chunk (fuel + 1) vm p [] [] =
      some (debug_run_eof pops vm p) := by
  unfold Accepting at hs
  rw [debug_run_loop]
  dsimp only
  rw [if_pos hs, if_pos rfl]
  simp only [next_chunk]

/-- Lines 121-133 either end the run, whatever follows, or execute the form
and hand the machine on. -/
theorem debug_run_after_shape {P V H C Fn : Type} (pops : ParserOps P V)
    (vops : VmOps V H C Fn) (vm : Gst V H) (p : P) :
    (∃ o, ∀ next, debug_run_after pops vops vm p next = some o) ∨
    (∀ next, debug_run_after pops vops vm p next =
      (next (debug_compile_and_run vops vm (pops.gst_parse_consume p) vm.ret).1).map
        (Outcome.after (exec_events vops vm (pops.gst_parse_consume p) vm.ret))) := by
  unfold debug_run_after
  cases pops.error p with
  | some msg => exact Or.inl ⟨_, fun _ => rfl⟩
  | none =>
    dsimp only
    by_cases hc : pops.status p ≠ GST_PARSER_FULL ∧ pops.status p ≠ GST_PARSER_ROOT
    · refine Or.inl ⟨(⟨1, vm, [Event.print "Unexpected end of source\n"]⟩ : Outcome V H),
        fun next => ?_⟩
      rw [if_pos hc]
    · by_cases hrc : (debug_compile_and_run vops vm (pops.gst_parse_consume p) vm.ret).2.2 ≠ 0
      · refine Or.inl ⟨(⟨1, (debug_compile_and_run vops vm (pops.gst_parse_consume p) vm.ret).1,
          exec_events vops vm (pops.gst_parse_consume p) vm.ret⟩ : Outcome V H),
          fun next => ?_⟩
        rw [if_neg hc, if_pos hrc]
      · refine Or.inr (fun next => ?_)
        rw [if_neg hc, if_neg hrc]

theorem debug_run_after_transfer {P V H C Fn : Type} (pops : ParserOps P V)
    (vops : VmOps V H C Fn) (vm : Gst V H) (p : P) (next : Gst V H → Option (Outcome V H))
    (next1 : Nat → Gst V H → Option (Outcome V H)) (o : Outcome V H)
    (hk : ∀ vm1 o1, next vm1 = some o1 → ∃ n, next1 n vm1 = some o1)
    (h : debug_run_after pops vops vm p next = some o) :
    ∃ n, debug_run_after pops vops vm p (next1 n) = some o := by
  rcases debug_run_after_shape pops vops vm p with ⟨o0, h0⟩ | h1
  · refine ⟨0, ?_⟩
    rw [h0] at h ⊢
    exact h
  · rw [h1, Option.map_eq_some'] at h
    obtain ⟨o1, ho1, rfl⟩ := h
    obtain ⟨n, hn⟩ := hk _ o1 ho1
    refine ⟨n, ?_⟩
    rw [h1, hn]
    rfl

theorem parse_nil {P V : Type} (pops : ParserOps P V) (dispatch : P → Byte → P)
    (hbw : ByteWise pops dispatch) (p : P) : pops.gst_parse_cstring p [] = (p, 0) := by
  rw [hbw]
  rfl

theorem parse_not_accepting {P V : Type} (pops : ParserOps P V) (dispatch : P → Byte → P)
    (hbw : ByteWise pops dispatch) (p : P) (hs : ¬ Accepting pops p) (s : List Byte) :
    pops.gst_parse_cstring p s = (p, 0) := by
  rw [hbw]
  cases s with
  | nil => rfl
  | cons c rest =>
    simp only [gst_parse_bytes]
    rw [if_neg]
    rw [accepting_iff]
    exact hs

theorem parse_cons {P V : Type} (pops : ParserOps P V) (dispatch : P → Byte → P)
    (hbw : ByteWise pops dispatch) (p : P) (hs : Accepting pops p) (c : Byte)
    (rest : List Byte) :
    pops.gst_parse_cstring p (c :: rest) =
      ((pops.gst_parse_cstring (dispatch p c) rest).1,
        (pops.gst_parse_cstring (dispatch p c) rest).2 + 1) := by
  rw [hbw, hbw]
  simp only [gst_parse_bytes]
  rw [if_pos]
  rw [accepting_iff]
  exact hs

theorem parse_bounds {P V : Type} (pops : ParserOps P V) (dispatch : P → Byte → P)
    (hbw : ByteWise pops dispatch) (p : P) (s : List Byte) :
    (pops.gst_parse_cstring p s).2 ≤ s.length ∧
      ((pops.gst_parse_cstring p s).2 < s.length →
        ¬ Accepting pops (pops.gst_parse_cstring p s).1) := by
  rw [hbw]
  obtain ⟨h1, h2⟩ := gst_parse_bytes_spec pops.status dispatch s p
  refine ⟨h1, fun h => ?_⟩
  unfold Accepting
  rw [← accepting_iff]
  exact h2 h

theorem debug_run_bytes_not_accepting {P V H C Fn : Type} (pops : ParserOps P V)
    (vops : VmOps V H C Fn) (dispatch : P → Byte → P) (hbw : ByteWise pops dispatch)
    (fuel : Nat) (vm : Gst V H) (p : P) (bytes : List Byte) (hs : ¬ Accepting pops p) :
    debug_run_bytes pops vops (fuel + 1) vm p bytes =
      debug_run_after pops vops vm p
        (fun vm1 => debug_run_bytes pops vops fuel vm1 pops.gst_parser_init bytes) := by
  rw [debug_run_bytes, parse_not_accepting pops dispatch hbw p hs]
  unfold Accepting at hs
  rw [if_neg hs]
  rfl

theorem debug_run_bytes_feed_one {P V H C Fn : Type} (pops : ParserOps P V)
    (vops : VmOps V H C Fn) (dispatch : P → Byte → P) (hbw : ByteWise pops dispatch)
    (fuel : Nat) (vm : Gst V H) (p : P) (c : Byte) (bs : List Byte) (hs : Accepting pops p) :
    debug_run_bytes pops vops fuel vm p (c :: bs) =
      debug_run_bytes pops vops fuel vm (dispatch p c) bs := by
  cases fuel with
  | zero => rfl
  | succ fuel =>
    rw [debug_run_bytes, debug_run_bytes, parse_cons pops dispatch hbw p hs]
    rfl

/-- Feeding a piece of the source first does not change the run on the whole
source. -/
theorem debug_run_bytes_feed {P V H C Fn : Type} (pops : ParserOps P V)
    (vops : VmOps V H C Fn) (dispatch : P → Byte → P) (hbw : ByteWise pops dispatch)
    (fuel : Nat) (vm : Gst V H) (rd : List Byte) :
    ∀ (p : P) (more : List Byte),
      debug_run_bytes pops vops fuel vm p (rd ++ more) =
        debug_run_bytes pops vops fuel vm (pops.gst_parse_cstring p rd).1
          (rd.drop (pops.gst_parse_cstring p rd).2 ++ more) := by
  induction rd with
  | nil =>
    intro p more
    rw [parse_nil pops dispatch hbw]
    rfl
  | cons c rd ih =>
    intro p more
    by_cases hs : Accepting pops p
    · rw [parse_cons pops dispatch hbw p hs, List.cons_append,
        debug_run_bytes_feed_one pops vops dispatch hbw fuel vm p c _ hs, ih]
      rfl
    · rw [parse_not_accepting pops dispatch hbw p hs]
      rfl

/-- A finished chunked run is a run on the source in one piece. -/
theorem debug_run_loop_to_bytes {P V H C Fn : Type} (pops : ParserOps P V)
    (vops : VmOps V H C Fn) (dispatch : P → Byte → P) (hbw : ByteWise pops dispatch) :
    ∀ (n : Nat) (vm : Gst V H) (p : P) (reader : List Byte) (cs : List (List Byte))
      (o : Outcome V H), (∀ c ∈ cs, NUL ∉ c) →
      debug_run_loop pops vops next_chunk n vm p reader cs = some o →
      ∃ f, debug_run_bytes pops vops f vm p (reader ++ cs.flatten) = some o := by
  intro n
  induction n with
  | zero => intro vm p reader cs o _ h; simp [debug_run_loop] at h
  | succ n ih =>
    intro vm p reader cs o hnul h
    by_cases hs : Accepting pops p
    · rcases debug_run_loop_cases pops vops next_chunk n vm p reader cs o h with
        ⟨-, ⟨hr, hc, rfl⟩ | ⟨rd, inp1, hsrc, -, hrec⟩⟩ | ⟨hns, -⟩
      · cases cs with
        | cons c cs => simp [next_chunk] at hc
        | nil =>
          subst hr
          refine ⟨1, ?_⟩
          simp only [List.flatten_nil, List.append_nil]
          rw [debug_run_bytes, parse_nil pops dispatch hbw]
          unfold Accepting at hs
          rw [if_pos hs]
      · have hbytes : reader ++ cs.flatten = rd ++ inp1.flatten ∧ (∀ c ∈ inp1, NUL ∉ c) := by
          rcases hsrc with ⟨hr, chunk, hc, hrd⟩ | ⟨-, hrd, hi⟩
          · cases cs with
            | nil => simp [next_chunk] at hc
            | cons c cs =>
              simp only [next_chunk, Option.some.injEq, Prod.mk.injEq] at hc
              obtain ⟨rfl, rfl⟩ := hc
              rw [hr, hrd, cstr_of_nul_free c (hnul c (List.mem_cons_self _ _))]
              exact ⟨by simp, fun x hx => hnul x (List.mem_cons_of_mem _ hx)⟩
          · rw [hrd, hi]
            exact ⟨rfl, hnul⟩
        obtain ⟨f, hf⟩ := ih _ _ _ _ _ hbytes.2 hrec
        refine ⟨f, ?_⟩
        rw [hbytes.1, debug_run_bytes_feed pops vops dispatch hbw]
        exact hf
      · exact absurd hs hns
    · rw [debug_run_loop_after pops vops next_chunk n vm p reader cs hs] at h
      obtain ⟨f, hf⟩ := debug_run_after_transfer pops vops vm p _
        (fun f vm1 => debug_run_bytes pops vops f vm1 pops.gst_parser_init
          (reader ++ cs.flatten)) o
        (fun vm1 o1 h1 => ih vm1 _ _ _ o1 hnul h1) h
      refine ⟨f + 1, ?_⟩
      rw [debug_run_bytes_not_accepting pops vops dispatch hbw f vm p _ hs]
      exact hf

/-- A finished run on the source in one piece is a run on every chunking. -/
theorem debug_run_bytes_to_loop {P V H C Fn : Type} (pops : ParserOps P V)
    (vops : VmOps V H C Fn) (dispatch : P → Byte → P) (hbw : ByteWise pops dispatch) :
    ∀ (f : Nat) (vm : Gst V H) (p : P) (reader : List Byte) (cs : List (List Byte))
      (o : Outcome V H), (∀ c ∈ cs, NUL ∉ c) →
      debug_run_bytes pops vops f vm p (reader ++ cs.flatten) = some o →
      ∃ n, debug_run_loop pops vops next_chunk n vm p reader cs = some o := by
  intro f
  induction f with
  | zero => intro vm p reader cs o _ h; simp [debug_run_bytes] at h
  | succ f ih =>
    -- the code after the inner loop
    have tail : ∀ (vm : Gst V H) (p : P) (reader : List Byte) (cs : List (List Byte))
        (o : Outcome V H), (∀ c ∈ cs, NUL ∉ c) → ¬ Accepting pops p →
        debug_run_bytes pops vops (f + 1) vm p (reader ++ cs.flatten) = some o →
        ∃ n, debug_run_loop pops vops next_chunk n vm p reader cs = some o := by
      intro vm p reader cs o hnul hs h
      rw [debug_run_bytes_not_accepting pops vops dispatch hbw f vm p _ hs] at h
      obtain ⟨n, hn⟩ := debug_run_after_transfer pops vops vm p _
        (fun n vm1 => debug_run_loop pops vops next_chunk n vm1 pops.gst_parser_init reader cs)
        o (fun vm1 o1 h1 => ih vm1 _ reader cs o1 hnul h1) h
      refine ⟨n + 1, ?_⟩
      rw [debug_run_loop_after pops vops next_chunk n vm p reader cs hs]
      exact hn
    -- an empty buffer
    have empty : ∀ (cs : List (List Byte)) (vm : Gst V H) (p : P) (o : Outcome V H),
        (∀ c ∈ cs, NUL ∉ c) →
        debug_run_bytes pops vops (f + 1) vm p ([] ++ cs.flatten) = some o →
        ∃ n, debug_run_loop pops vops next_chunk n vm p [] cs = some o := by
      intro cs
      induction cs with
      | nil =>
        intro vm p o hnul h
        by_cases hs : Accepting pops p
        · refine ⟨1, ?_⟩
          rw [debug_run_loop_end pops vops 0 vm p hs]
          simp only [List.flatten_nil, List.append_nil] at h
          rw [debug_run_bytes, parse_nil pops dispatch hbw] at h
          unfold Accepting at hs
          rw [if_pos hs] at h
          exact h
        · exact tail vm p [] [] o hnul hs h
      | cons c cs ihc =>
        intro vm p o hnul h
        by_cases hs : Accepting pops p
        · have hc : cstr c = c := cstr_of_nul_free c (hnul c (List.mem_cons_self _ _))
          have hnul1 : ∀ x ∈ cs, NUL ∉ x := fun x hx => hnul x (List.mem_cons_of_mem _ hx)
          obtain ⟨hb1, hb2⟩ := parse_bounds pops dispatch hbw p c
          simp only [List.nil_append, List.flatten_cons] at h
          rw [debug_run_bytes_feed pops vops dispatch hbw] at h
          have hstep : ∃ n, debug_run_loop pops vops next_chunk n vm
              (pops.gst_parse_cstring p c).1 (c.drop (pops.gst_parse_cstring p c).2) cs
                = some o := by
            by_cases hall : (pops.gst_parse_cstring p c).2 < c.length
            · exact tail _ _ _ cs o hnul1 (hb2 hall) h
            · have hd : c.drop (pops.gst_parse_cstring p c).2 = [] :=
                List.drop_eq_nil_of_le (by omega)
              rw [hd] at h ⊢
              exact ihc _ _ o hnul1 h
          obtain ⟨n, hn⟩ := hstep
          refine ⟨n + 1, ?_⟩
          rw [debug_run_loop_refill pops vops n vm p c cs hs (by rw [hc]; exact hb1), hc]
          exact hn
        · exact tail vm p [] (c :: cs) o hnul hs h
    intro vm p reader cs o hnul h
    by_cases hs : Accepting pops p
    · by_cases hr : reader = []
      · subst hr
        exact empty cs vm p o hnul h
      · obtain ⟨hb1, hb2⟩ := parse_bounds pops dispatch hbw p reader
        rw [debug_run_bytes_feed pops vops dispatch hbw] at h
        have hstep : ∃ n, debug_run_loop pops vops next_chunk n vm
            (pops.gst_parse_cstring p reader).1
            (reader.drop (pops.gst_parse_cstring p reader).2) cs = some o := by
          by_cases hall : (pops.gst_parse_cstring p reader).2 < reader.length
          · exact tail _ _ _ cs o hnul (hb2 hall) h
          · have hd : reader.drop (pops.gst_parse_cstring p reader).2 = [] :=
              List.drop_eq_nil_of_le (by omega)
            rw [hd] at h ⊢
            exact empty cs _ _ o hnul h
        obtain ⟨n, hn⟩ := hstep
        refine ⟨n + 1, ?_⟩
        rw [debug_run_loop_feed pops vops next_chunk n vm p reader cs hs hr hb1]
        exact hn
    · exact tail vm p reader cs o hnul hs h

theorem parse_progress {P V : Type} (pops : ParserOps P V) (dispatch : P → Byte → P)
    (hbw : ByteWise pops dispatch) (p : P) (s : List Byte) (hs : Accepting pops p)
    (hn : ¬ Accepting pops (pops.gst_parse_cstring p s).1) :
    0 < (pops.gst_parse_cstring p s).2 := by
  cases s with
  | nil =>
    rw [parse_nil pops dispatch hbw] at hn
    exact absurd hs hn
  | cons c rest =>
    rw [parse_cons pops dispatch hbw p hs]
    exact Nat.succ_pos _

/-- With a parser that reads byte by byte and whose new session takes bytes,
the run on the source in one piece finishes. -/
theorem debug_run_bytes_terminates {P V H C Fn : Type} (pops : ParserOps P V)
    (vops : VmOps V H C Fn) (dispatch : P → Byte → P) (hbw : ByteWise pops dispatch)
    (hinit : Accepting pops pops.gst_parser_init) :
    ∀ (k : Nat) (bytes : List Byte) (vm : Gst V H), bytes.length ≤ k →
      ∃ f o, debug_run_bytes pops vops f vm pops.gst_parser_init bytes = some o := by
  intro k
  induction k with
  | zero =>
    intro bytes vm hk
    have hb : bytes = [] := List.length_eq_zero.mp (Nat.le_zero.mp hk)
    subst hb
    refine ⟨1, debug_run_eof pops vm pops.gst_parser_init, ?_⟩
    rw [debug_run_bytes, parse_nil pops dispatch hbw]
    unfold Accepting at hinit
    rw [if_pos hinit]
  | succ k ih =>
    intro bytes vm hk
    by_cases ha : Accepting pops (pops.gst_parse_cstring pops.gst_parser_init bytes).1
    · refine ⟨1, debug_run_eof pops vm
        (pops.gst_parse_cstring pops.gst_parser_init bytes).1, ?_⟩
      rw [debug_run_bytes]
      unfold Accepting at ha
      rw [if_pos ha]
    · have hpos := parse_progress pops dispatch hbw _ bytes hinit ha
      have hunf : ∀ f, debug_run_bytes pops vops (f + 1) vm pops.gst_parser_init bytes =
          debug_run_after pops vops vm (pops.gst_parse_cstring pops.gst_parser_init bytes).1
            (fun vm1 => debug_run_bytes pops vops f vm1 pops.gst_parser_init
              (bytes.drop (pops.gst_parse_cstring pops.gst_parser_init bytes).2)) := by
        intro f
        rw [debug_run_bytes]
        unfold Accepting at ha
        rw [if_neg ha]
      rcases debug_run_after_shape pops vops vm
          (pops.gst_parse_cstring pops.gst_parser_init bytes).1 with ⟨o0, h0⟩ | h1
      · exact ⟨1, o0, by rw [hunf, h0]⟩
      · have hlen : (bytes.drop (pops.gst_parse_cstring pops.gst_parser_init bytes).2).length
            ≤ k := by
          rw [List.length_drop]
          omega
        obtain ⟨f, o1, hf⟩ := ih _
          (debug_compile_and_run vops vm (pops.gst_parse_consume
            (pops.gst_parse_cstring pops.gst_parser_init bytes).1) vm.ret).1 hlen
        refine ⟨f + 1, Outcome.after (exec_events vops vm (pops.gst_parse_consume
          (pops.gst_parse_cstring pops.gst_parser_init bytes).1) vm.ret) o1, ?_⟩
        rw [hunf, h1, hf]
        rfl

/-- C4: for a parser whose feed hands the bytes to a step function one at a
time while the session is `PENDING` or `ROOT`, and two lists of NUL-free chunks
with the same concatenation, delivered by the successive reads of `debug_run`:
an outcome (returned status, machine, and the sequence of forms executed and
lines printed) is reached on one chunking exactly when it is reached on the
other; and when a new session takes bytes, both runs finish, with the same
outcome. -/
theorem debug_run_chunk_invariant {P V H C Fn : Type} (pops : ParserOps P V)
    (vops : VmOps V H C Fn) (dispatch : P → Byte → P) (hbw : ByteWise pops dispatch)
    (vm : Gst V H) (cs1 cs2 : List (List Byte))
    (h1 : ∀ c ∈ cs1, NUL ∉ c) (h2 : ∀ c ∈ cs2, NUL ∉ c) (hj : cs1.flatten = cs2.flatten) :
    (∀ o, (∃ f, debug_run_chunks pops vops f vm cs1 = some o) ↔
      (∃ f, debug_run_chunks pops vops f vm cs2 = some o)) ∧
    ((pops.status pops.gst_parser_init ≠ GST_PARSER_ERROR ∧
        pops.status pops.gst_parser_init ≠ GST_PARSER_FULL) →
      ∃ o f1 f2, debug_run_chunks pops vops f1 vm cs1 = some o ∧
        debug_run_chunks pops vops f2 vm cs2 = some o) := by
  have key : ∀ (a b : List (List Byte)), (∀ c ∈ a, NUL ∉ c) → (∀ c ∈ b, NUL ∉ c) →
      a.flatten = b.flatten → ∀ o, (∃ f, debug_run_chunks pops vops f vm a = some o) →
      ∃ f, debug_run_chunks pops vops f vm b = some o := by
    intro a b ha hb hab o ⟨f, hf⟩
    obtain ⟨g, hg⟩ := debug_run_loop_to_bytes pops vops dispatch hbw f vm _ [] a o ha hf
    rw [hab] at hg
    exact debug_run_bytes_to_loop pops vops dispatch hbw g vm _ [] b o hb hg
  refine ⟨fun o => ⟨key cs1 cs2 h1 h2 hj o, key cs2 cs1 h2 h1 hj.symm o⟩, fun hinit => ?_⟩
  obtain ⟨f, o, hf⟩ := debug_run_bytes_terminates pops vops dispatch hbw hinit _
    cs1.flatten vm (Nat.le_refl _)
  obtain ⟨n1, hn1⟩ := debug_run_bytes_to_loop pops vops dispatch hbw f vm _ [] cs1 o h1
    (by simpa using hf)
  obtain ⟨n2, hn2⟩ := debug_run_bytes_to_loop pops vops dispatch hbw f vm _ [] cs2 o h2
    (by rw [← hj]; simpa using hf)
  exact ⟨o, n1, n2, hn1, hn2⟩

/-- Witness for C4: the source with the lines `1` and `2`, in one chunk and in
three. -/
theorem debug_run_chunk_invariant_witness :
    ByteWise wordParser word_dispatch ∧
    (∀ c ∈ [[(49 : Byte), 10, 50, 10]], NUL ∉ c) ∧
    (∀ c ∈ [[(49 : Byte)], [10, 50], [10]], NUL ∉ c) ∧
    [[(49 : Byte), 10, 50, 10]].flatten = [[49], [10, 50], [10]].flatten ∧
    ((wordParser.status wordParser.gst_parser_init ≠ GST_PARSER_ERROR ∧
        wordParser.status wordParser.gst_parser_init ≠ GST_PARSER_FULL) →
      ∃ o f1 f2, debug_run_chunks wordParser wordVm f1 wordVm0 [[49, 10, 50, 10]] = some o ∧
        debug_run_chunks wordParser wordVm f2 wordVm0 [[49], [10, 50], [10]] = some o) :=
  ⟨fun _ _ => rfl, by decide, by decide, by decide,
    (debug_run_chunk_invariant wordParser wordVm word_dispatch (fun _ _ => rfl) wordVm0
      [[49, 10, 50, 10]] [[49], [10, 50], [10]] (by decide) (by decide) (by decide)).2⟩

end GstClient
